import Mathlib

/-!
Verification of the Columnar File Format (CFF) encoder/decoder.

This development shallowly embeds `src/cff_writer.py` and `src/cff_reader.py`.
Modelling conventions:
- a byte stream is a `List Nat` (each entry a byte value 0..255 when produced
  by the writer; the reader is total over arbitrary `Nat` lists);
- a Python `str` is identified with its UTF-8 byte sequence (`PyStr`), so
  `str.encode` / `bytes.decode` are the identity;
- a Python `float` is represented by its IEEE-754 binary64 bit pattern;
- `zlib` is abstracted as a `Compressor`: a compression function together
  with a decompression function satisfying the round-trip law
  (decompression failure models `zlib.error`);
- Python exceptions are mapped to the error taxonomy of the format
  description: `struct.error` → `Err.structError`, `KeyError` →
  `Err.keyError`, `IndexError` → `Err.indexError`, the various
  `ValueError`s to their specific kinds (invalid magic, unsupported
  version, column not found, unknown type tag, integrity mismatch,
  empty input, invalid value for a column type).
-/

namespace CFF

/-- A Python `str`, identified with its UTF-8 byte sequence. -/
abbrev PyStr := List Nat

/-- UTF-8 encoding of a single character (by code point). -/
def utf8Char (c : Char) : List Nat :=
  let n := c.toNat
  if n < 128 then [n]
  else if n < 2048 then [192 + n / 64, 128 + n % 64]
  else if n < 65536 then [224 + n / 4096, 128 + (n / 64) % 64, 128 + n % 64]
  else [240 + n / 262144, 128 + (n / 4096) % 64, 128 + (n / 64) % 64, 128 + n % 64]

/-- UTF-8 encoding of a Lean string, used to write down concrete `PyStr`s. -/
def utf8 (s : String) : PyStr :=
  (s.data.map utf8Char).flatten

/-- Little-endian byte encoding: `k` bytes of `n` (mirrors `struct.pack`
with an unsigned format character, after the range check). -/
def natToLE : Nat → Nat → List Nat
  | 0, _ => []
  | k + 1, n => n % 256 :: natToLE k (n / 256)

/-- Little-endian byte decoding (mirrors `struct.unpack` on `k` bytes). -/
def natFromLE : List Nat → Nat
  | [] => 0
  | b :: bs => b + 256 * natFromLE bs

theorem natToLE_length (k n : Nat) : (natToLE k n).length = k := by
  induction k generalizing n with
  | zero => rfl
  | succ k ih => simp [natToLE, ih]

theorem natFromLE_natToLE (k n : Nat) (h : n < 256 ^ k) :
    natFromLE (natToLE k n) = n := by
  induction k generalizing n with
  | zero =>
    simp [natToLE, natFromLE]
    omega
  | succ k ih =>
    have hlt : n / 256 < 256 ^ k := by
      rw [Nat.div_lt_iff_lt_mul (by norm_num)]
      calc n < 256 ^ (k + 1) := h
        _ = 256 ^ k * 256 := by ring
    simp [natToLE, natFromLE, ih _ hlt]
    omega

/-- The Python value universe that can appear in a table cell. -/
inductive Value where
  | none
  | bool (b : Bool)
  | int (n : Int)
  | float (bits : Nat)
  | str (s : PyStr)
deriving DecidableEq, Repr

/-- Error kinds, following the format description's taxonomy plus the raw
Python exceptions (`KeyError`, `IndexError`, `struct.error`, `zlib.error`)
that fall outside it. -/
inductive Err where
  | invalidMagic
  | unsupportedVersion
  | columnNotFound
  | unknownTypeTag
  | integrityMismatch
  | emptyInput
  | nonUniformLength
  | invalidValueForType
  | keyError
  | indexError
  | structError
  | decompressError
deriving DecidableEq, Repr

/-- `TYPE_INT32 = 0x01` -/
def TYPE_INT32 : Nat := 1
/-- `TYPE_FLOAT64 = 0x02` -/
def TYPE_FLOAT64 : Nat := 2
/-- `TYPE_STRING = 0x03` -/
def TYPE_STRING : Nat := 3

/-- `MAGIC_NUMBER = b'CFF1'` -/
def MAGIC_NUMBER : List Nat := [67, 70, 70, 49]

/-- `CFFWriter.infer_type`: bool and int map to Int32, float to Float64,
str to String, anything else (here: `None`) defaults to String. -/
def infer_type : Value → Nat
  | Value.bool _ => TYPE_INT32
  | Value.int _ => TYPE_INT32
  | Value.float _ => TYPE_FLOAT64
  | Value.str _ => TYPE_STRING
  | Value.none => TYPE_STRING

/-- The writer's per-value skip test in the inference scan:
`val is not None and val != ''` negated. -/
def isMissing : Value → Bool
  | Value.none => true
  | Value.str s => s = ([] : List Nat)
  | _ => false

/-- The type-inference scan in `CFFWriter.write`: the type of the first
value that is neither `None` nor the empty string; String if none exists. -/
def inferColumnType : List Value → Nat
  | [] => TYPE_STRING
  | v :: vs => if isMissing v then inferColumnType vs else infer_type v

/-! ### Python value conversions

`int(val)`, `float(val)` and `str(val)` as invoked by the serializers.
Floats are bit patterns; the encode/decode helpers below implement the
IEEE-754 binary64 interpretation used by `struct.pack('<d', ...)` inputs.
Simplifications relative to CPython, none of which any claim depends on:
numeric string literals with underscore separators are not accepted, and
`str` of a float prints the exact decimal expansion of the represented
value rather than CPython's shortest round-tripping decimal. -/

/-- ASCII whitespace, as stripped by Python numeric conversions. -/
def isSpaceByte (b : Nat) : Bool := b = 32 || b = 9 || b = 10 || b = 13 || b = 11 || b = 12

/-- Strip leading and trailing ASCII whitespace. -/
def stripSpaces (s : PyStr) : PyStr :=
  ((s.dropWhile isSpaceByte).reverse.dropWhile isSpaceByte).reverse

/-- ASCII decimal digit test. -/
def isDigitByte (b : Nat) : Bool := 48 ≤ b && b ≤ 57

/-- Numeric value of a big-endian ASCII digit string. -/
def digitsToNat (ds : List Nat) : Nat :=
  ds.foldl (fun acc b => acc * 10 + (b - 48)) 0

/-- Parse a nonempty all-digit string. -/
def parseNatDigits (s : PyStr) : Option Nat :=
  if s ≠ [] ∧ s.all isDigitByte then Option.some (digitsToNat s) else Option.none

/-- `int(s)` on a Python string: optional sign around a digit run,
surrounding whitespace allowed; anything else raises `ValueError`. -/
def parseIntPy (s : PyStr) : Option Int :=
  let t := stripSpaces s
  match t with
  | 43 :: rest => (parseNatDigits rest).map Int.ofNat
  | 45 :: rest => (parseNatDigits rest).map (fun n => -(n : Int))
  | _ => (parseNatDigits t).map Int.ofNat

/-- `int(f)` on a float given by its bit pattern: truncation toward zero;
`None` for NaN or an infinity (Python raises there). -/
def floatBitsToInt (bits : Nat) : Option Int :=
  let b := bits % 2 ^ 64
  let sign := b / 2 ^ 63
  let e : Nat := (b / 2 ^ 52) % 2 ^ 11
  let mant := b % 2 ^ 52
  if e = 2047 then Option.none
  else
    let m := if e = 0 then mant else 2 ^ 52 + mant
    let ex : Int := (if e = 0 then 1 else (e : Int)) - 1075
    let mag : Nat := if 0 ≤ ex then m * 2 ^ ex.toNat else m / 2 ^ (-ex).toNat
    Option.some (if sign = 1 then -(mag : Int) else (mag : Int))

/-- `int(val)` for each value shape (`None` encodes a raised exception). -/
def intOfValue : Value → Option Int
  | Value.bool b => Option.some (if b then 1 else 0)
  | Value.int n => Option.some n
  | Value.float bits => floatBitsToInt bits
  | Value.str s => parseIntPy s
  | Value.none => Option.none

/-- ASCII decimal digits of a natural number. -/
def digitsBytes (n : Nat) : List Nat :=
  (Nat.toDigits 10 n).map Char.toNat

/-- `str(n)` for a Python int. -/
def intRepr (n : Int) : PyStr :=
  if n < 0 then 45 :: digitsBytes n.natAbs else digitsBytes n.natAbs

/-- Drop trailing ASCII zeros. -/
def stripTrailingZeros (ds : List Nat) : List Nat :=
  (ds.reverse.dropWhile (fun b => b = 48)).reverse

/-- `str(f)` for a float given by its bit pattern: sign, then the decimal
expansion of the represented dyadic rational (see the section comment),
with `inf`/`nan` spellings as in Python. -/
def floatRepr (bits : Nat) : PyStr :=
  let b := bits % 2 ^ 64
  let sign := b / 2 ^ 63
  let e : Nat := (b / 2 ^ 52) % 2 ^ 11
  let mant := b % 2 ^ 52
  if e = 2047 then
    if mant = 0 then (if sign = 1 then utf8 "-inf" else utf8 "inf") else utf8 "nan"
  else
    let m := if e = 0 then mant else 2 ^ 52 + mant
    let ex : Int := (if e = 0 then 1 else (e : Int)) - 1075
    let sgn : PyStr := if sign = 1 then [45] else []
    if 0 ≤ ex then
      sgn ++ digitsBytes (m * 2 ^ ex.toNat) ++ utf8 ".0"
    else
      let k := (-ex).toNat
      let n := m * 5 ^ k
      let ip := n / 10 ^ k
      let fp := n % 10 ^ k
      let fracDigits :=
        stripTrailingZeros (List.replicate (k - (digitsBytes fp).length) 48 ++ digitsBytes fp)
      sgn ++ digitsBytes ip ++ [46] ++ (if fracDigits = [] then [48] else fracDigits)

/-- `str(val)` for each value shape (total, as in Python). -/
def strOfValue : Value → PyStr
  | Value.str s => s
  | Value.none => utf8 "None"
  | Value.bool true => utf8 "True"
  | Value.bool false => utf8 "False"
  | Value.int n => intRepr n
  | Value.float bits => floatRepr bits

/-- Round `n / d` to the nearest integer, ties to even (`d > 0`). -/
def roundHalfEven (n d : Nat) : Nat :=
  let q := n / d
  let r := n % d
  if 2 * r > d then q + 1 else if 2 * r < d then q else if q % 2 = 0 then q else q + 1

/-- `⌊log₂ (a / b)⌋` for positive naturals `a`, `b`. -/
def floorLog2Q (a b : Nat) : Int :=
  let F := b.log2 + 1
  ((a * 2 ^ F / b).log2 : Int) - F

/-- Bit pattern of `+∞`. -/
def INF_BITS : Nat := 0x7FF0000000000000

/-- Round the positive rational `a / b` to the nearest binary64 value
(ties to even) and return its bit pattern (sign bit handled by callers);
overflow yields the infinity pattern. -/
def encodePosBits (a b : Nat) : Nat :=
  let e := floorLog2Q a b
  if 1024 ≤ e then INF_BITS
  else if -1022 ≤ e then
    let m :=
      if e ≤ 52 then roundHalfEven (a * 2 ^ (52 - e).toNat) b
      else roundHalfEven a (b * 2 ^ (e - 52).toNat)
    if m = 2 ^ 53 then
      if 1024 ≤ e + 1 then INF_BITS
      else (e + 1 + 1023).toNat * 2 ^ 52
    else (e + 1023).toNat * 2 ^ 52 + (m - 2 ^ 52)
  else
    roundHalfEven (a * 2 ^ 1074) b

/-- `float(n)` on a Python int: exact if representable, round-half-even
otherwise; `None` models the `OverflowError` on magnitudes beyond the
binary64 range. -/
def intToDoubleBits (n : Int) : Option Nat :=
  if n = 0 then Option.some 0
  else
    let bits := encodePosBits n.natAbs 1
    if bits = INF_BITS then Option.none
    else Option.some ((if n < 0 then 2 ^ 63 else 0) + bits)

/-- Lower-case an ASCII letter byte. -/
def toLowerByte (b : Nat) : Nat := if 65 ≤ b && b ≤ 90 then b + 32 else b

/-- Parse the body of a decimal float literal into mantissa digits and a
base-10 exponent: `digits [. digits] [(e|E) [sign] digits]` with at least
one mantissa digit, consuming the whole string. -/
def parseDecimal (s : PyStr) : Option (Nat × Int) :=
  let intPart := s.takeWhile isDigitByte
  let rest1 := s.dropWhile isDigitByte
  let fracPart := match rest1 with
    | 46 :: r => r.takeWhile isDigitByte
    | _ => []
  let rest2 := match rest1 with
    | 46 :: r => r.dropWhile isDigitByte
    | r => r
  if intPart.length + fracPart.length = 0 then Option.none
  else
    let mant := digitsToNat (intPart ++ fracPart)
    let fexp : Int := -(fracPart.length : Int)
    match rest2 with
    | [] => Option.some (mant, fexp)
    | c :: r =>
      if c = 101 ∨ c = 69 then
        let esign : Int := match r with
          | 45 :: _ => -1
          | _ => 1
        let digits := match r with
          | 43 :: d => d
          | 45 :: d => d
          | d => d
        if digits ≠ [] ∧ digits.all isDigitByte then
          Option.some (mant, fexp + esign * (digitsToNat digits : Int))
        else Option.none
      else Option.none

/-- `float(s)` on a Python string: optional sign, `inf`/`infinity`/`nan`
spellings (case-insensitive) or a decimal literal, rounded to the nearest
binary64 value; `None` models the `ValueError` on anything else. -/
def parseFloatPy (s : PyStr) : Option Nat :=
  let t := stripSpaces s
  let sign : Nat := match t with
    | 45 :: _ => 1
    | _ => 0
  let body := match t with
    | 43 :: r => r
    | 45 :: r => r
    | r => r
  let low := body.map toLowerByte
  if low = utf8 "inf" ∨ low = utf8 "infinity" then Option.some (sign * 2 ^ 63 + INF_BITS)
  else if low = utf8 "nan" then Option.some 0x7FF8000000000000
  else match parseDecimal body with
    | Option.none => Option.none
    | Option.some (mant, exp10) =>
      if mant = 0 then Option.some (sign * 2 ^ 63)
      else
        let dc : Int := (Nat.log 10 mant : Int) + 1
        if 311 ≤ dc + exp10 then Option.some (sign * 2 ^ 63 + INF_BITS)
        else if dc + exp10 ≤ -340 then Option.some (sign * 2 ^ 63)
        else
          let bits :=
            if 0 ≤ exp10 then encodePosBits (mant * 10 ^ exp10.toNat) 1
            else encodePosBits mant (10 ^ (-exp10).toNat)
          Option.some (sign * 2 ^ 63 + bits)

/-- `float(val)` for each value shape, as the resulting bit pattern
(`None` encodes a raised exception). -/
def floatOfValueBits : Value → Option Nat
  | Value.float bits => Option.some (bits % 2 ^ 64)
  | Value.bool b => Option.some (if b then 0x3FF0000000000000 else 0)
  | Value.int n => intToDoubleBits n
  | Value.str s => parseFloatPy s
  | Value.none => Option.none

/-! ### Encoder (`src/cff_writer.py`) -/

/-- A table row: a Python dict as an association list (keys in insertion
order; a genuine dict has no duplicate keys, which theorems assume where
they need it). -/
abbrev Row := List (PyStr × Value)

/-- Per-column metadata, shared by writer and reader. -/
structure ColumnMetadata where
  name : PyStr
  dtype : Nat
  offset : Nat
  compressedSize : Nat
  uncompressedSize : Nat
deriving DecidableEq, Repr

/-- The zlib abstraction: level-6 DEFLATE compression plus decompression,
with the round-trip law; `decompress` returning `none` models
`zlib.error`. -/
structure Compressor where
  compress : List Nat → List Nat
  decompress : List Nat → Option (List Nat)
  decompress_compress : ∀ d, decompress (compress d) = Option.some d

/-- The trivial compressor (identity), used to instantiate theorems on
concrete inputs. -/
def idCompressor : Compressor where
  compress := fun d => d
  decompress := fun d => Option.some d
  decompress_compress := fun _ => rfl

/-- `struct.pack` with an unsigned `k`-byte format character: little-endian
bytes after the range check (`struct.error` otherwise). -/
def packU (k n : Nat) : Except Err (List Nat) :=
  if n < 256 ^ k then Except.ok (natToLE k n) else Except.error Err.structError

/-- `struct.pack('<i', n)`: 4-byte two's-complement little-endian after the
signed range check. -/
def packI32 (n : Int) : Except Err (List Nat) :=
  if -(2 ^ 31) ≤ n ∧ n < 2 ^ 31 then Except.ok (natToLE 4 (n % (2 ^ 32 : Int)).toNat)
  else Except.error Err.structError

/-- `CFFWriter.serialize_int32_column`: `struct.pack('<i', int(val))` per
value, concatenated; a failed `int()` conversion is the
`InvalidValueForType` error of the format description. -/
def serializeInt32Column : List Value → Except Err (List Nat)
  | [] => Except.ok []
  | v :: vs =>
    match intOfValue v with
    | Option.none => Except.error Err.invalidValueForType
    | Option.some n =>
      match packI32 n with
      | Except.error e => Except.error e
      | Except.ok bs =>
        match serializeInt32Column vs with
        | Except.error e => Except.error e
        | Except.ok rest => Except.ok (bs ++ rest)

/-- `CFFWriter.serialize_float64_column`: `struct.pack('<d', float(val))`
per value, concatenated (packing a float never fails). -/
def serializeFloat64Column : List Value → Except Err (List Nat)
  | [] => Except.ok []
  | v :: vs =>
    match floatOfValueBits v with
    | Option.none => Except.error Err.invalidValueForType
    | Option.some bits =>
      match serializeFloat64Column vs with
      | Except.error e => Except.error e
      | Except.ok rest => Except.ok (natToLE 8 bits ++ rest)

/-- The cumulative offset list built by `serialize_string_column`
(`N + 1` offsets for `N` strings, starting from `acc`). -/
def strOffsets (acc : Nat) : List Value → List Nat
  | [] => [acc]
  | v :: vs => acc :: strOffsets (acc + (strOfValue v).length) vs

/-- The concatenated UTF-8 blob of `serialize_string_column`. -/
def strBlob (vs : List Value) : List Nat :=
  (vs.map strOfValue).flatten

/-- Pack each offset as `struct.pack('<I', offset)`, concatenated. -/
def packOffsets : List Nat → Except Err (List Nat)
  | [] => Except.ok []
  | o :: os =>
    match packU 4 o with
    | Except.error e => Except.error e
    | Except.ok bs =>
      match packOffsets os with
      | Except.error e => Except.error e
      | Except.ok rest => Except.ok (bs ++ rest)

/-- `CFFWriter.serialize_string_column`: the offset table followed by the
concatenated `str(val).encode('utf-8')` blob. -/
def serializeStringColumn (vs : List Value) : Except Err (List Nat) :=
  match packOffsets (strOffsets 0 vs) with
  | Except.error e => Except.error e
  | Except.ok ob => Except.ok (ob ++ strBlob vs)

/-- `CFFWriter.serialize_column`: dispatch on the type code. -/
def serializeColumn (vs : List Value) (dtype : Nat) : Except Err (List Nat) :=
  if dtype = TYPE_INT32 then serializeInt32Column vs
  else if dtype = TYPE_FLOAT64 then serializeFloat64Column vs
  else if dtype = TYPE_STRING then serializeStringColumn vs
  else Except.error Err.unknownTypeTag

/-- One column as assembled by the first loop of `CFFWriter.write`:
its name, its values gathered row by row, and its inferred type. -/
structure BuiltColumn where
  name : PyStr
  values : List Value
  dtype : Nat
deriving DecidableEq, Repr

/-- `[row[col_name] for row in data]`: gather one column, where a row
without the key raises `KeyError`. -/
def getColumn (name : PyStr) : List Row → Except Err (List Value)
  | [] => Except.ok []
  | row :: rest =>
    match row.lookup name with
    | Option.none => Except.error Err.keyError
    | Option.some v =>
      match getColumn name rest with
      | Except.error e => Except.error e
      | Except.ok vs => Except.ok (v :: vs)

/-- The first loop of `CFFWriter.write`: per column name, gather the
values and infer the column type. -/
def buildColumns (data : List Row) : List PyStr → Except Err (List BuiltColumn)
  | [] => Except.ok []
  | name :: rest =>
    match getColumn name data with
    | Except.error e => Except.error e
    | Except.ok vals =>
      match buildColumns data rest with
      | Except.error e => Except.error e
      | Except.ok cols => Except.ok (⟨name, vals, inferColumnType vals⟩ :: cols)

/-- One column after the serialize-and-compress loop of `CFFWriter.write`. -/
structure ProcessedColumn where
  name : PyStr
  dtype : Nat
  compressed : List Nat
  uncompressedSize : Nat
deriving DecidableEq, Repr

/-- The serialize-and-compress loop of `CFFWriter.write`
(`compress_column` is zlib at level 6, here the abstract compressor). -/
def processColumns (C : Compressor) : List BuiltColumn → Except Err (List ProcessedColumn)
  | [] => Except.ok []
  | c :: cs =>
    match serializeColumn c.values c.dtype with
    | Except.error e => Except.error e
    | Except.ok u =>
      match processColumns C cs with
      | Except.error e => Except.error e
      | Except.ok rest => Except.ok (⟨c.name, c.dtype, C.compress u, u.length⟩ :: rest)

/-- The header-size computation of `CFFWriter.write`: magic + version +
row count + column count, then per column the name-length field, the name
bytes, the type byte and three 8-byte fields. -/
def headerSizeOf (procs : List ProcessedColumn) : Nat :=
  20 + (procs.map (fun c => 4 + c.name.length + 1 + 8 + 8 + 8)).sum

/-- The offset-assignment loop of `CFFWriter.write`: consecutive blocks
starting at `cur`. -/
def assignOffsets (cur : Nat) : List ProcessedColumn → List ColumnMetadata
  | [] => []
  | c :: cs =>
    ⟨c.name, c.dtype, cur, c.compressed.length, c.uncompressedSize⟩
      :: assignOffsets (cur + c.compressed.length) cs

/-- One descriptor as emitted by `CFFWriter.write_header`. -/
def writeDescriptor (m : ColumnMetadata) : Except Err (List Nat) :=
  match packU 4 m.name.length with
  | Except.error e => Except.error e
  | Except.ok lenB =>
    match packU 1 m.dtype with
    | Except.error e => Except.error e
    | Except.ok dtypeB =>
      match packU 8 m.offset with
      | Except.error e => Except.error e
      | Except.ok offB =>
        match packU 8 m.compressedSize with
        | Except.error e => Except.error e
        | Except.ok csB =>
          match packU 8 m.uncompressedSize with
          | Except.error e => Except.error e
          | Except.ok usB => Except.ok (lenB ++ m.name ++ dtypeB ++ offB ++ csB ++ usB)

/-- The descriptor table as emitted by `CFFWriter.write_header`. -/
def writeDescriptors : List ColumnMetadata → Except Err (List Nat)
  | [] => Except.ok []
  | m :: ms =>
    match writeDescriptor m with
    | Except.error e => Except.error e
    | Except.ok db =>
      match writeDescriptors ms with
      | Except.error e => Except.error e
      | Except.ok rest => Except.ok (db ++ rest)

/-- `CFFWriter.write_header`: magic, version, row count, column count,
then the descriptor table. -/
def mkHeaderBytes (numRows : Nat) (metas : List ColumnMetadata) : Except Err (List Nat) :=
  match packU 4 1 with
  | Except.error e => Except.error e
  | Except.ok verB =>
    match packU 8 numRows with
    | Except.error e => Except.error e
    | Except.ok rowsB =>
      match packU 4 metas.length with
      | Except.error e => Except.error e
      | Except.ok colsB =>
        match writeDescriptors metas with
        | Except.error e => Except.error e
        | Except.ok descB => Except.ok (MAGIC_NUMBER ++ verB ++ rowsB ++ colsB ++ descB)

/-- `CFFWriter.write`: the full encoder, producing the byte stream that
the Python version writes to its destination file. -/
def write (C : Compressor) (data : List Row) : Except Err (List Nat) :=
  match data with
  | [] => Except.error Err.emptyInput
  | r0 :: _ =>
    let columnNames := r0.map Prod.fst
    match buildColumns data columnNames with
    | Except.error e => Except.error e
    | Except.ok built =>
      match processColumns C built with
      | Except.error e => Except.error e
      | Except.ok procs =>
        let metas := assignOffsets (headerSizeOf procs) procs
        match mkHeaderBytes data.length metas with
        | Except.error e => Except.error e
        | Except.ok header => Except.ok (header ++ (procs.map (fun c => c.compressed)).flatten)

/-! ### Decoder (`src/cff_reader.py`) -/

/-- The state of an opened `CFFReader`: the backing bytes plus the
eagerly-parsed header fields. -/
structure CFFReader where
  fileBytes : List Nat
  numRows : Nat
  columnsMetadata : List ColumnMetadata
deriving DecidableEq, Repr

/-- `struct.unpack` of `k` little-endian unsigned bytes from the front of
the stream; `struct.error` when fewer than `k` bytes remain. -/
def unpackU (k : Nat) (bs : List Nat) : Except Err (Nat × List Nat) :=
  if k ≤ bs.length then Except.ok (natFromLE (bs.take k), bs.drop k)
  else Except.error Err.structError

/-- The descriptor loop of `CFFReader._read_header` (`f.read(name_length)`
may return fewer bytes near end-of-file, like the Python `read`). -/
def readDescriptors : Nat → List Nat → Except Err (List ColumnMetadata × List Nat)
  | 0, bs => Except.ok ([], bs)
  | n + 1, bs =>
    match unpackU 4 bs with
    | Except.error e => Except.error e
    | Except.ok (nameLen, bs1) =>
      let name := bs1.take nameLen
      let bs2 := bs1.drop nameLen
      match unpackU 1 bs2 with
      | Except.error e => Except.error e
      | Except.ok (dtype, bs3) =>
        match unpackU 8 bs3 with
        | Except.error e => Except.error e
        | Except.ok (offset, bs4) =>
          match unpackU 8 bs4 with
          | Except.error e => Except.error e
          | Except.ok (csize, bs5) =>
            match unpackU 8 bs5 with
            | Except.error e => Except.error e
            | Except.ok (usize, bs6) =>
              match readDescriptors n bs6 with
              | Except.error e => Except.error e
              | Except.ok (ms, rest) =>
                Except.ok (⟨name, dtype, offset, csize, usize⟩ :: ms, rest)

/-- `CFFReader.__init__` + `_read_header`: magic check, version check,
row count, column count, then the descriptor table. -/
def readHeader (file : List Nat) : Except Err CFFReader :=
  if file.take 4 ≠ MAGIC_NUMBER then Except.error Err.invalidMagic
  else
    match unpackU 4 (file.drop 4) with
    | Except.error e => Except.error e
    | Except.ok (version, bs1) =>
      if version ≠ 1 then Except.error Err.unsupportedVersion
      else
        match unpackU 8 bs1 with
        | Except.error e => Except.error e
        | Except.ok (numRows, bs2) =>
          match unpackU 4 bs2 with
          | Except.error e => Except.error e
          | Except.ok (numCols, bs3) =>
            match readDescriptors numCols bs3 with
            | Except.error e => Except.error e
            | Except.ok (metas, _) => Except.ok ⟨file, numRows, metas⟩

/-- `CFFReader.get_column_names`. -/
def getColumnNames (r : CFFReader) : List PyStr :=
  r.columnsMetadata.map (fun m => m.name)

/-- The type-name table of `CFFReader.get_schema` (with its `UNKNOWN`
fallback for a type tag outside the enumeration). -/
def typeName (dtype : Nat) : PyStr :=
  if dtype = TYPE_INT32 then utf8 "INT32"
  else if dtype = TYPE_FLOAT64 then utf8 "FLOAT64"
  else if dtype = TYPE_STRING then utf8 "STRING"
  else utf8 "UNKNOWN"

/-- `CFFReader.get_schema`: column name to type name, in descriptor order. -/
def getSchema (r : CFFReader) : List (PyStr × PyStr) :=
  r.columnsMetadata.map (fun m => (m.name, typeName m.dtype))

/-- `CFFReader._read_column_data`: seek to the descriptor's offset, read
exactly `compressed_size` bytes, decompress, and check the decompressed
length against `uncompressed_size`. -/
def readColumnData (C : Compressor) (r : CFFReader) (m : ColumnMetadata) :
    Except Err (List Nat) :=
  let compressedData := (r.fileBytes.drop m.offset).take m.compressedSize
  match C.decompress compressedData with
  | Option.none => Except.error Err.decompressError
  | Option.some u =>
    if u.length = m.uncompressedSize then Except.ok u
    else Except.error Err.integrityMismatch

/-- `CFFReader._deserialize_int32_column`: consecutive 4-byte signed
little-endian integers (`struct.error` on a trailing short chunk). -/
def deserializeInt32 : List Nat → Except Err (List Int)
  | [] => Except.ok []
  | b0 :: b1 :: b2 :: b3 :: rest =>
    let u := natFromLE [b0, b1, b2, b3]
    let n : Int := if u < 2 ^ 31 then (u : Int) else (u : Int) - 2 ^ 32
    match deserializeInt32 rest with
    | Except.error e => Except.error e
    | Except.ok ns => Except.ok (n :: ns)
  | _ => Except.error Err.structError

/-- `CFFReader._deserialize_float64_column`: consecutive 8-byte values,
kept as bit patterns. -/
def deserializeFloat64 : List Nat → Except Err (List Nat)
  | [] => Except.ok []
  | b0 :: b1 :: b2 :: b3 :: b4 :: b5 :: b6 :: b7 :: rest =>
    match deserializeFloat64 rest with
    | Except.error e => Except.error e
    | Except.ok ns => Except.ok (natFromLE [b0, b1, b2, b3, b4, b5, b6, b7] :: ns)
  | _ => Except.error Err.structError

/-- The offset-parsing loop of `_deserialize_string_column`: `n` unsigned
32-bit offsets. -/
def parseOffsets : Nat → List Nat → Except Err (List Nat)
  | 0, _ => Except.ok []
  | n + 1, bs =>
    match bs with
    | b0 :: b1 :: b2 :: b3 :: rest =>
      match parseOffsets n rest with
      | Except.error e => Except.error e
      | Except.ok os => Except.ok (natFromLE [b0, b1, b2, b3] :: os)
    | _ => Except.error Err.structError

/-- The slicing loop of `_deserialize_string_column`: one slice of the
blob per consecutive offset pair (Python slicing clamps out-of-range
bounds). -/
def extractStrings (stringData : List Nat) : List Nat → List PyStr
  | o1 :: o2 :: rest => ((stringData.take o2).drop o1) :: extractStrings stringData (o2 :: rest)
  | _ => []

/-- `CFFReader._deserialize_string_column`: split off the
`(num_rows + 1) * 4`-byte offset table, parse it, then slice the blob. -/
def deserializeString (numRows : Nat) (data : List Nat) : Except Err (List PyStr) :=
  let offsetArraySize := (numRows + 1) * 4
  match parseOffsets (numRows + 1) (data.take offsetArraySize) with
  | Except.error e => Except.error e
  | Except.ok offs => Except.ok (extractStrings (data.drop offsetArraySize) offs)

/-- `CFFReader._deserialize_column`: dispatch on the descriptor's type
tag, raising the unknown-type-tag error outside the enumeration. -/
def deserializeColumn (numRows dtype : Nat) (data : List Nat) : Except Err (List Value) :=
  if dtype = TYPE_INT32 then
    match deserializeInt32 data with
    | Except.error e => Except.error e
    | Except.ok ns => Except.ok (ns.map Value.int)
  else if dtype = TYPE_FLOAT64 then
    match deserializeFloat64 data with
    | Except.error e => Except.error e
    | Except.ok bs => Except.ok (bs.map Value.float)
  else if dtype = TYPE_STRING then
    match deserializeString numRows data with
    | Except.error e => Except.error e
    | Except.ok ss => Except.ok (ss.map Value.str)
  else Except.error Err.unknownTypeTag

/-- The materialization loop of `CFFReader.read_columns`: walk the
descriptor table, reading and deserializing the requested columns. -/
def materializeColumns (C : Compressor) (r : CFFReader) (requested : List PyStr) :
    List ColumnMetadata → Except Err (List (PyStr × List Value))
  | [] => Except.ok []
  | m :: ms =>
    if requested.contains m.name then
      match readColumnData C r m with
      | Except.error e => Except.error e
      | Except.ok data =>
        match deserializeColumn r.numRows m.dtype data with
        | Except.error e => Except.error e
        | Except.ok vals =>
          match materializeColumns C r requested ms with
          | Except.error e => Except.error e
          | Except.ok rest => Except.ok ((m.name, vals) :: rest)
    else materializeColumns C r requested ms

/-- `CFFReader.read_columns`: default to every column, validate each
requested name against the schema (whole call aborts on a missing name),
then materialize the requested columns in descriptor order. -/
def readColumns (C : Compressor) (r : CFFReader) (names : Option (List PyStr)) :
    Except Err (List (PyStr × List Value)) :=
  let requested := match names with
    | Option.none => getColumnNames r
    | Option.some ns => ns
  if requested.all (fun n => (getColumnNames r).contains n) then
    materializeColumns C r requested r.columnsMetadata
  else Except.error Err.columnNotFound

/-- One transposed row of `CFFReader.read`: index `i` of every
materialized column (`IndexError` past the end of a column). -/
def buildRow (cols : List (PyStr × List Value)) (i : Nat) : Except Err Row :=
  match cols with
  | [] => Except.ok []
  | (n, vs) :: rest =>
    match vs[i]? with
    | Option.none => Except.error Err.indexError
    | Option.some v =>
      match buildRow rest i with
      | Except.error e => Except.error e
      | Except.ok row => Except.ok ((n, v) :: row)

/-- The row loop of `CFFReader.read`: rows `start, start+1, ...` for
`count` iterations (`read` uses `start = 0`, `count = num_rows`). -/
def buildRowsFrom (cols : List (PyStr × List Value)) : Nat → Nat → Except Err (List Row)
  | _, 0 => Except.ok []
  | i, count + 1 =>
    match buildRow cols i with
    | Except.error e => Except.error e
    | Except.ok row =>
      match buildRowsFrom cols (i + 1) count with
      | Except.error e => Except.error e
      | Except.ok rows => Except.ok (row :: rows)

/-- `CFFReader.read`: materialize every column, then transpose. -/
def read (C : Compressor) (r : CFFReader) : Except Err (List Row) :=
  match readColumns C r Option.none with
  | Except.error e => Except.error e
  | Except.ok cols => buildRowsFrom cols 0 r.numRows

/-- Open-then-read: `CFFReader(path).read()` on a byte stream. -/
def decodeFile (C : Compressor) (bytes : List Nat) : Except Err (List Row) :=
  match readHeader bytes with
  | Except.error e => Except.error e
  | Except.ok r => read C r

/-! ### Generic lemmas -/

instance {ε α : Type} [DecidableEq ε] [DecidableEq α] : DecidableEq (Except ε α) := fun x y =>
  match x, y with
  | Except.ok a, Except.ok b =>
    if h : a = b then isTrue (by rw [h]) else isFalse (by simp [h])
  | Except.error a, Except.error b =>
    if h : a = b then isTrue (by rw [h]) else isFalse (by simp [h])
  | Except.ok _, Except.error _ => isFalse (by simp)
  | Except.error _, Except.ok _ => isFalse (by simp)

theorem natToLE_four (u : Nat) :
    natToLE 4 u = [u % 256, u / 256 % 256, u / 256 / 256 % 256, u / 256 / 256 / 256 % 256] := rfl

theorem natToLE_eight (u : Nat) :
    natToLE 8 u = [u % 256, u / 256 % 256, u / 256 / 256 % 256, u / 256 / 256 / 256 % 256,
      u / 256 / 256 / 256 / 256 % 256, u / 256 / 256 / 256 / 256 / 256 % 256,
      u / 256 / 256 / 256 / 256 / 256 / 256 % 256,
      u / 256 / 256 / 256 / 256 / 256 / 256 / 256 % 256] := rfl

/-- `struct.pack` on an unsigned field succeeds exactly on the value range. -/
theorem packU_ok {k n : Nat} {bs : List Nat} (h : packU k n = Except.ok bs) :
    bs = natToLE k n ∧ n < 256 ^ k := by
  unfold packU at h
  split at h
  · exact ⟨(Except.ok.injEq _ _).mp h.symm, by assumption⟩
  · exact absurd h (by simp)

theorem unpackU_append {k : Nat} {bs : List Nat} (rest : List Nat) (h : bs.length = k) :
    unpackU k (bs ++ rest) = Except.ok (natFromLE bs, rest) := by
  unfold unpackU
  rw [if_pos (by simp [h])]
  subst h
  rw [List.take_left, List.drop_left]

theorem unpackU_natToLE {k n : Nat} (rest : List Nat) (h : n < 256 ^ k) :
    unpackU k (natToLE k n ++ rest) = Except.ok (n, rest) := by
  rw [unpackU_append rest (natToLE_length k n), natFromLE_natToLE k n h]

/-! ### Int32 column round trip -/

theorem deserializeInt32_chunk (u : Nat) (rest : List Nat) (h : u < 2 ^ 32) :
    deserializeInt32 (natToLE 4 u ++ rest) =
      match deserializeInt32 rest with
      | Except.error e => Except.error e
      | Except.ok ns =>
        Except.ok ((if u < 2 ^ 31 then (u : Int) else (u : Int) - 2 ^ 32) :: ns) := by
  rw [natToLE_four]
  show deserializeInt32 (_ :: _ :: _ :: _ :: rest) = _
  rw [deserializeInt32]
  have hres : natFromLE [u % 256, u / 256 % 256, u / 256 / 256 % 256,
      u / 256 / 256 / 256 % 256] = u := by
    rw [← natToLE_four, natFromLE_natToLE 4 u h]
  rw [hres]

/-- Two's-complement reinterpretation inverts `pack('<i')` on in-range ints. -/
theorem int32_signed_round (n : Int) (h1 : -(2 ^ 31) ≤ n) (h2 : n < 2 ^ 31) :
    (if (n % (2 ^ 32 : Int)).toNat < 2 ^ 31 then ((n % (2 ^ 32 : Int)).toNat : Int)
     else ((n % (2 ^ 32 : Int)).toNat : Int) - 2 ^ 32) = n := by
  have hnn : (0 : Int) ≤ n % (2 ^ 32 : Int) := Int.emod_nonneg n (by norm_num)
  have hcast : ((n % (2 ^ 32 : Int)).toNat : Int) = n % (2 ^ 32 : Int) :=
    Int.toNat_of_nonneg hnn
  have hunf : ((n % (2 ^ 32 : Int)).toNat < 2 ^ 31) ↔
      ((n % (2 ^ 32 : Int)) < (2 ^ 31 : Int)) := by
    omega
  split
  · next hlt => rw [hcast]; omega
  · next hlt => rw [hcast]; omega

theorem packI32_toNat_lt (n : Int) : (n % (2 ^ 32 : Int)).toNat < 2 ^ 32 := by
  have h1 : (0 : Int) ≤ n % (2 ^ 32 : Int) := Int.emod_nonneg n (by norm_num)
  have h2 : n % (2 ^ 32 : Int) < 2 ^ 32 := Int.emod_lt_of_pos n (by norm_num)
  omega

/-- A serialized Int32 column deserializes to one signed value per input
value, whatever the inputs converted to. -/
theorem serializeInt32_shape (vs : List Value) (u : List Nat)
    (h : serializeInt32Column vs = Except.ok u) :
    ∃ ns, deserializeInt32 u = Except.ok ns ∧ ns.length = vs.length := by
  induction vs generalizing u with
  | nil =>
    rw [serializeInt32Column] at h
    cases h
    exact ⟨[], rfl, rfl⟩
  | cons v vs ih =>
    rw [serializeInt32Column] at h
    split at h
    · exact absurd h (by simp)
    · next n hn =>
      revert h
      match hp : packI32 n with
      | Except.error e => intro h; exact absurd h (by simp)
      | Except.ok bs =>
        match hs : serializeInt32Column vs with
        | Except.error e => intro h; exact absurd h (by simp)
        | Except.ok rest =>
          intro h
          cases h
          obtain ⟨ns, hdes, hlen⟩ := ih rest hs
          unfold packI32 at hp
          split at hp
          · cases hp
            rw [deserializeInt32_chunk _ rest (packI32_toNat_lt n), hdes]
            exact ⟨_, rfl, by simp [hlen]⟩
          · exact absurd hp (by simp)

/-- On a column of in-range `Value.int`s the Int32 serializer succeeds and
the deserializer returns exactly the original values. -/
theorem int32_column_roundtrip (vs : List Value)
    (h : ∀ v ∈ vs, ∃ n : Int, v = Value.int n ∧ -(2 ^ 31) ≤ n ∧ n < 2 ^ 31) :
    ∃ u ns, serializeInt32Column vs = Except.ok u ∧ u.length = 4 * vs.length ∧
      deserializeInt32 u = Except.ok ns ∧ ns.map Value.int = vs := by
  induction vs with
  | nil => exact ⟨[], [], rfl, rfl, rfl, rfl⟩
  | cons v vs ih =>
    obtain ⟨n, hv, hlo, hhi⟩ := h v (List.mem_cons_self v vs)
    obtain ⟨u, ns, hser, hlen, hdes, hmap⟩ := ih (fun w hw => h w (List.mem_cons_of_mem v hw))
    subst hv
    have hpack : packI32 n = Except.ok (natToLE 4 (n % (2 ^ 32 : Int)).toNat) := by
      unfold packI32
      rw [if_pos ⟨hlo, hhi⟩]
    refine ⟨natToLE 4 (n % (2 ^ 32 : Int)).toNat ++ u, n :: ns, ?_, ?_, ?_, ?_⟩
    · rw [serializeInt32Column]
      show (match packI32 n with
        | Except.error e => Except.error e
        | Except.ok bs =>
          match serializeInt32Column vs with
          | Except.error e => Except.error e
          | Except.ok rest => Except.ok (bs ++ rest)) = _
      rw [hpack, hser]
    · simp [natToLE_length, hlen]; ring
    · rw [deserializeInt32_chunk _ u (packI32_toNat_lt n), hdes,
        int32_signed_round n hlo hhi]
    · simp [hmap]

/-! ### Float64 column round trip -/

theorem deserializeFloat64_chunk (u : Nat) (rest : List Nat) :
    deserializeFloat64 (natToLE 8 u ++ rest) =
      match deserializeFloat64 rest with
      | Except.error e => Except.error e
      | Except.ok ns => Except.ok (natFromLE (natToLE 8 u) :: ns) := by
  rw [natToLE_eight]
  show deserializeFloat64 (_ :: _ :: _ :: _ :: _ :: _ :: _ :: _ :: rest) = _
  rw [deserializeFloat64, ← natToLE_eight]

/-- A serialized Float64 column deserializes to one bit pattern per input
value, whatever the inputs converted to. -/
theorem serializeFloat64_shape (vs : List Value) (u : List Nat)
    (h : serializeFloat64Column vs = Except.ok u) :
    ∃ ns, deserializeFloat64 u = Except.ok ns ∧ ns.length = vs.length := by
  induction vs generalizing u with
  | nil =>
    rw [serializeFloat64Column] at h
    cases h
    exact ⟨[], rfl, rfl⟩
  | cons v vs ih =>
    rw [serializeFloat64Column] at h
    split at h
    · exact absurd h (by simp)
    · next bits hb =>
      revert h
      match hs : serializeFloat64Column vs with
      | Except.error e => intro h; exact absurd h (by simp)
      | Except.ok rest =>
        intro h
        cases h
        obtain ⟨ns, hdes, hlen⟩ := ih rest hs
        rw [deserializeFloat64_chunk bits rest, hdes]
        exact ⟨_, rfl, by simp [hlen]⟩

/-- On a column of in-range `Value.float`s the Float64 serializer succeeds
and the deserializer returns exactly the original bit patterns. -/
theorem float64_column_roundtrip (vs : List Value)
    (h : ∀ v ∈ vs, ∃ b : Nat, v = Value.float b ∧ b < 2 ^ 64) :
    ∃ u ns, serializeFloat64Column vs = Except.ok u ∧
      deserializeFloat64 u = Except.ok ns ∧ ns.map Value.float = vs := by
  induction vs with
  | nil => exact ⟨[], [], rfl, rfl, rfl⟩
  | cons v vs ih =>
    obtain ⟨b, hv, hb⟩ := h v (List.mem_cons_self v vs)
    obtain ⟨u, ns, hser, hdes, hmap⟩ := ih (fun w hw => h w (List.mem_cons_of_mem v hw))
    subst hv
    have hbits : floatOfValueBits (Value.float b) = Option.some b := by
      rw [floatOfValueBits, Nat.mod_eq_of_lt hb]
    refine ⟨natToLE 8 b ++ u, b :: ns, ?_, ?_, ?_⟩
    · rw [serializeFloat64Column]
      show (match floatOfValueBits (Value.float b) with
        | Option.none => Except.error Err.invalidValueForType
        | Option.some bits =>
          match serializeFloat64Column vs with
          | Except.error e => Except.error e
          | Except.ok rest => Except.ok (natToLE 8 bits ++ rest)) = _
      rw [hbits, hser]
    · rw [deserializeFloat64_chunk b u, hdes, natFromLE_natToLE 8 b hb]
    · simp [hmap]

/-! ### String column round trip -/

theorem strOffsets_length (acc : Nat) (vs : List Value) :
    (strOffsets acc vs).length = vs.length + 1 := by
  induction vs generalizing acc with
  | nil => rfl
  | cons v vs ih => simp [strOffsets, ih]

theorem strOffsets_head (acc : Nat) (vs : List Value) :
    ∃ t, strOffsets acc vs = acc :: t := by
  cases vs with
  | nil => exact ⟨[], rfl⟩
  | cons v vs => exact ⟨_, rfl⟩

/-- A successful `packOffsets` emits the 4-byte encodings in order, and
certifies every offset fit in 32 bits. -/
theorem packOffsets_ok (os : List Nat) (b : List Nat) (h : packOffsets os = Except.ok b) :
    b = (os.map (natToLE 4)).flatten ∧ ∀ o ∈ os, o < 2 ^ 32 := by
  induction os generalizing b with
  | nil =>
    rw [packOffsets] at h
    cases h
    exact ⟨rfl, by simp⟩
  | cons o os ih =>
    rw [packOffsets] at h
    revert h
    match hp : packU 4 o with
    | Except.error e => intro h; exact absurd h (by simp)
    | Except.ok bs =>
      match hr : packOffsets os with
      | Except.error e => intro h; exact absurd h (by simp)
      | Except.ok rest =>
        intro h
        cases h
        obtain ⟨hb, hlt⟩ := packU_ok hp
        obtain ⟨hrest, hall⟩ := ih rest hr
        subst hb hrest
        refine ⟨by simp, ?_⟩
        intro x hx
        rcases List.mem_cons.mp hx with hx | hx
        · subst hx; exact hlt
        · exact hall x hx

theorem flatten_natToLE4_length (os : List Nat) :
    ((os.map (natToLE 4)).flatten).length = 4 * os.length := by
  induction os with
  | nil => rfl
  | cons o os ih => simp [natToLE_length, ih]; ring

theorem parseOffsets_roundtrip (os : List Nat) (h : ∀ o ∈ os, o < 2 ^ 32) :
    parseOffsets os.length ((os.map (natToLE 4)).flatten) = Except.ok os := by
  induction os with
  | nil => rfl
  | cons o os ih =>
    have hrec := ih (fun x hx => h x (List.mem_cons_of_mem o hx))
    show parseOffsets (os.length + 1) (natToLE 4 o ++ (os.map (natToLE 4)).flatten) =
      Except.ok (o :: os)
    rw [natToLE_four]
    show (match parseOffsets os.length ((os.map (natToLE 4)).flatten) with
      | Except.error e => Except.error e
      | Except.ok t => Except.ok (natFromLE [o % 256, o / 256 % 256, o / 256 / 256 % 256,
          o / 256 / 256 / 256 % 256] :: t)) = _
    rw [hrec, ← natToLE_four, natFromLE_natToLE 4 o (h o (List.mem_cons_self o os))]

theorem extractStrings_flatten (vs : List Value) : ∀ pre : List Nat,
    extractStrings (pre ++ strBlob vs) (strOffsets pre.length vs) = vs.map strOfValue := by
  induction vs with
  | nil =>
    intro pre
    rfl
  | cons v vs ih =>
    intro pre
    obtain ⟨t, ht⟩ := strOffsets_head (pre.length + (strOfValue v).length) vs
    have hblob : strBlob (v :: vs) = strOfValue v ++ strBlob vs := by
      simp [strBlob]
    rw [strOffsets, ht, hblob]
    rw [extractStrings, List.map_cons]
    congr 1
    · rw [← List.append_assoc]
      have h1 : (pre ++ strOfValue v ++ strBlob vs).take (pre.length + (strOfValue v).length) =
          pre ++ strOfValue v := by
        have : pre.length + (strOfValue v).length = (pre ++ strOfValue v).length := by simp
        rw [this, List.take_left]
      rw [h1, List.drop_left]
    · rw [← ht, ← List.append_assoc]
      have := ih (pre ++ strOfValue v)
      rw [List.length_append] at this
      exact this

/-- A successful string serialization deserializes (at the true row count)
to exactly the `str()` images of the inputs. -/
theorem serializeString_roundtrip (vs : List Value) (u : List Nat)
    (h : serializeStringColumn vs = Except.ok u) :
    deserializeString vs.length u = Except.ok (vs.map strOfValue) := by
  unfold serializeStringColumn at h
  revert h
  match hp : packOffsets (strOffsets 0 vs) with
  | Except.error e => intro h; exact absurd h (by simp)
  | Except.ok ob =>
    intro h
    cases h
    obtain ⟨hob, hall⟩ := packOffsets_ok _ _ hp
    subst hob
    unfold deserializeString
    have hlen : (((strOffsets 0 vs).map (natToLE 4)).flatten).length = (vs.length + 1) * 4 := by
      rw [flatten_natToLE4_length, strOffsets_length]
      ring
    have htake : (((strOffsets 0 vs).map (natToLE 4)).flatten ++ strBlob vs).take
        ((vs.length + 1) * 4) = ((strOffsets 0 vs).map (natToLE 4)).flatten := by
      rw [← hlen, List.take_left]
    have hdrop : (((strOffsets 0 vs).map (natToLE 4)).flatten ++ strBlob vs).drop
        ((vs.length + 1) * 4) = strBlob vs := by
      rw [← hlen, List.drop_left]
    have hparse : parseOffsets (vs.length + 1) (((strOffsets 0 vs).map (natToLE 4)).flatten) =
        Except.ok (strOffsets 0 vs) := by
      have := parseOffsets_roundtrip (strOffsets 0 vs) hall
      rw [strOffsets_length] at this
      exact this
    have hext := extractStrings_flatten vs []
    simp only [List.nil_append, List.length_nil] at hext
    simp only [htake, hdrop, hparse, hext]

/-! ### Column-level round trip -/

/-- A value matches a column type when the serializer for that type maps
it to bytes that decode back to the very same value: an in-range int for
Int32, an in-range bit pattern for Float64, a string for String. -/
def valueMatchesType (v : Value) (dtype : Nat) : Bool :=
  if dtype = TYPE_INT32 then
    match v with
    | Value.int n => decide (-(2 ^ 31) ≤ n) && decide (n < 2 ^ 31)
    | _ => false
  else if dtype = TYPE_FLOAT64 then
    match v with
    | Value.float b => decide (b < 2 ^ 64)
    | _ => false
  else if dtype = TYPE_STRING then
    match v with
    | Value.str _ => true
    | _ => false
  else false

/-- A successfully serialized column deserializes (at the true row count)
to one value per input value, whatever the inputs were. -/
theorem serializeColumn_shape (vs : List Value) (dtype : Nat) (u : List Nat)
    (h : serializeColumn vs dtype = Except.ok u) :
    ∃ ws, deserializeColumn vs.length dtype u = Except.ok ws ∧ ws.length = vs.length := by
  unfold serializeColumn at h
  unfold deserializeColumn
  split at h
  · next hd =>
    rw [if_pos hd]
    obtain ⟨ns, hdes, hlen⟩ := serializeInt32_shape vs u h
    rw [hdes]
    exact ⟨_, rfl, by simp [hlen]⟩
  · split at h
    · next hd1 hd2 =>
      rw [if_neg hd1, if_pos hd2]
      obtain ⟨ns, hdes, hlen⟩ := serializeFloat64_shape vs u h
      rw [hdes]
      exact ⟨_, rfl, by simp [hlen]⟩
    · split at h
      · next hd1 hd2 hd3 =>
        rw [if_neg hd1, if_neg hd2, if_pos hd3]
        rw [serializeString_roundtrip vs u h]
        exact ⟨_, rfl, by simp⟩
      · exact absurd h (by simp)

/-- A column whose values all match the column type round-trips exactly
through serialize and deserialize. -/
theorem serializeColumn_roundtrip (vs : List Value) (dtype : Nat) (u : List Nat)
    (hm : ∀ v ∈ vs, valueMatchesType v dtype = true)
    (h : serializeColumn vs dtype = Except.ok u) :
    deserializeColumn vs.length dtype u = Except.ok vs := by
  unfold serializeColumn at h
  unfold deserializeColumn
  split at h
  · next hd =>
    rw [if_pos hd]
    subst hd
    have hm2 : ∀ v ∈ vs, ∃ n : Int, v = Value.int n ∧ -(2 ^ 31) ≤ n ∧ n < 2 ^ 31 := by
      intro v hv
      have := hm v hv
      unfold valueMatchesType at this
      rw [if_pos rfl] at this
      match v, this with
      | Value.int n, hi =>
        exact ⟨n, rfl, by simpa using hi⟩
    obtain ⟨u2, ns, hser, _, hdes, hmap⟩ := int32_column_roundtrip vs hm2
    rw [hser] at h
    cases h
    rw [hdes]
    show Except.ok (ns.map Value.int) = _
    rw [hmap]
  · split at h
    · next hd1 hd2 =>
      rw [if_neg hd1, if_pos hd2]
      subst hd2
      have hm2 : ∀ v ∈ vs, ∃ b : Nat, v = Value.float b ∧ b < 2 ^ 64 := by
        intro v hv
        have := hm v hv
        unfold valueMatchesType at this
        rw [if_neg hd1, if_pos rfl] at this
        match v, this with
        | Value.float b, hi =>
          exact ⟨b, rfl, by simpa using hi⟩
      obtain ⟨u2, ns, hser, hdes, hmap⟩ := float64_column_roundtrip vs hm2
      rw [hser] at h
      cases h
      rw [hdes]
      show Except.ok (ns.map Value.float) = _
      rw [hmap]
    · split at h
      · next hd1 hd2 hd3 =>
        rw [if_neg hd1, if_neg hd2, if_pos hd3]
        subst hd3
        rw [serializeString_roundtrip vs u h]
        have hmapstr : (vs.map strOfValue).map Value.str = vs := by
          rw [List.map_map]
          have : ∀ v ∈ vs, (Value.str ∘ strOfValue) v = id v := by
            intro v hv
            have := hm v hv
            unfold valueMatchesType at this
            rw [if_neg hd1, if_neg hd2, if_pos rfl] at this
            match v, this with
            | Value.str s, _ => rfl
          rw [List.map_congr_left this, List.map_id]
        show Except.ok ((vs.map strOfValue).map Value.str) = _
        rw [hmapstr]
      · exact absurd h (by simp)

/-! ### Header round trip -/

theorem writeDescriptor_ok {m : ColumnMetadata} {db : List Nat}
    (h : writeDescriptor m = Except.ok db) :
    db = natToLE 4 m.name.length ++ m.name ++ natToLE 1 m.dtype ++ natToLE 8 m.offset ++
        natToLE 8 m.compressedSize ++ natToLE 8 m.uncompressedSize ∧
      m.name.length < 256 ^ 4 ∧ m.dtype < 256 ^ 1 ∧ m.offset < 256 ^ 8 ∧
      m.compressedSize < 256 ^ 8 ∧ m.uncompressedSize < 256 ^ 8 := by
  unfold writeDescriptor at h
  revert h
  match h1 : packU 4 m.name.length with
  | Except.error e => intro h; exact absurd h (by simp)
  | Except.ok lenB =>
    match h2 : packU 1 m.dtype with
    | Except.error e => intro h; exact absurd h (by simp)
    | Except.ok dtypeB =>
      match h3 : packU 8 m.offset with
      | Except.error e => intro h; exact absurd h (by simp)
      | Except.ok offB =>
        match h4 : packU 8 m.compressedSize with
        | Except.error e => intro h; exact absurd h (by simp)
        | Except.ok csB =>
          match h5 : packU 8 m.uncompressedSize with
          | Except.error e => intro h; exact absurd h (by simp)
          | Except.ok usB =>
            intro h
            cases h
            obtain ⟨e1, b1⟩ := packU_ok h1
            obtain ⟨e2, b2⟩ := packU_ok h2
            obtain ⟨e3, b3⟩ := packU_ok h3
            obtain ⟨e4, b4⟩ := packU_ok h4
            obtain ⟨e5, b5⟩ := packU_ok h5
            subst e1 e2 e3 e4 e5
            exact ⟨rfl, b1, b2, b3, b4, b5⟩

theorem readDescriptors_roundtrip (ms : List ColumnMetadata) (db : List Nat)
    (h : writeDescriptors ms = Except.ok db) (rest : List Nat) :
    readDescriptors ms.length (db ++ rest) = Except.ok (ms, rest) := by
  induction ms generalizing db with
  | nil =>
    rw [writeDescriptors] at h
    cases h
    rfl
  | cons m ms ih =>
    rw [writeDescriptors] at h
    revert h
    match h1 : writeDescriptor m with
    | Except.error e => intro h; exact absurd h (by simp)
    | Except.ok db0 =>
      match h2 : writeDescriptors ms with
      | Except.error e => intro h; exact absurd h (by simp)
      | Except.ok dbs =>
        intro h
        cases h
        obtain ⟨hdb0, hname, hdtype, hoff, hcs, hus⟩ := writeDescriptor_ok h1
        subst hdb0
        show readDescriptors (ms.length + 1) _ = _
        rw [readDescriptors]
        simp only [List.append_assoc, unpackU_natToLE, hname, hdtype, hoff, hcs, hus,
          List.take_left, List.drop_left, ih dbs h2]

theorem writeDescriptors_length (ms : List ColumnMetadata) (db : List Nat)
    (h : writeDescriptors ms = Except.ok db) :
    db.length = (ms.map (fun m => 29 + m.name.length)).sum := by
  induction ms generalizing db with
  | nil =>
    rw [writeDescriptors] at h
    cases h
    rfl
  | cons m ms ih =>
    rw [writeDescriptors] at h
    revert h
    match h1 : writeDescriptor m with
    | Except.error e => intro h; exact absurd h (by simp)
    | Except.ok db0 =>
      match h2 : writeDescriptors ms with
      | Except.error e => intro h; exact absurd h (by simp)
      | Except.ok dbs =>
        intro h
        cases h
        obtain ⟨hdb0, _⟩ := writeDescriptor_ok h1
        subst hdb0
        simp [natToLE_length, ih dbs h2]
        ring

theorem mkHeaderBytes_roundtrip (numRows : Nat) (metas : List ColumnMetadata)
    (header : List Nat) (h : mkHeaderBytes numRows metas = Except.ok header)
    (blocks : List Nat) :
    readHeader (header ++ blocks) = Except.ok ⟨header ++ blocks, numRows, metas⟩ := by
  unfold mkHeaderBytes at h
  revert h
  match h1 : packU 4 1 with
  | Except.error e => intro h; exact absurd h (by simp)
  | Except.ok verB =>
    match h2 : packU 8 numRows with
    | Except.error e => intro h; exact absurd h (by simp)
    | Except.ok rowsB =>
      match h3 : packU 4 metas.length with
      | Except.error e => intro h; exact absurd h (by simp)
      | Except.ok colsB =>
        match h4 : writeDescriptors metas with
        | Except.error e => intro h; exact absurd h (by simp)
        | Except.ok descB =>
          intro h
          cases h
          obtain ⟨e1, b1⟩ := packU_ok h1
          obtain ⟨e2, b2⟩ := packU_ok h2
          obtain ⟨e3, b3⟩ := packU_ok h3
          subst e1 e2 e3
          unfold readHeader
          have hmagic : (MAGIC_NUMBER ++ (natToLE 4 1 ++ (natToLE 8 numRows ++
              (natToLE 4 metas.length ++ (descB ++ blocks))))).take 4 = MAGIC_NUMBER := rfl
          have hdrop : (MAGIC_NUMBER ++ (natToLE 4 1 ++ (natToLE 8 numRows ++
              (natToLE 4 metas.length ++ (descB ++ blocks))))).drop 4 =
              natToLE 4 1 ++ (natToLE 8 numRows ++
              (natToLE 4 metas.length ++ (descB ++ blocks))) := rfl
          simp only [List.append_assoc, hmagic, hdrop, ne_eq, not_true_eq_false,
            if_false, unpackU_natToLE, b1, b2, b3,
            readDescriptors_roundtrip metas descB h4 blocks]

theorem mkHeaderBytes_length (numRows : Nat) (metas : List ColumnMetadata)
    (header : List Nat) (h : mkHeaderBytes numRows metas = Except.ok header) :
    header.length = 20 + (metas.map (fun m => 29 + m.name.length)).sum := by
  unfold mkHeaderBytes at h
  revert h
  match h1 : packU 4 1 with
  | Except.error e => intro h; exact absurd h (by simp)
  | Except.ok verB =>
    match h2 : packU 8 numRows with
    | Except.error e => intro h; exact absurd h (by simp)
    | Except.ok rowsB =>
      match h3 : packU 4 metas.length with
      | Except.error e => intro h; exact absurd h (by simp)
      | Except.ok colsB =>
        match h4 : writeDescriptors metas with
        | Except.error e => intro h; exact absurd h (by simp)
        | Except.ok descB =>
          intro h
          cases h
          obtain ⟨e1, _⟩ := packU_ok h1
          obtain ⟨e2, _⟩ := packU_ok h2
          obtain ⟨e3, _⟩ := packU_ok h3
          subst e1 e2 e3
          simp [MAGIC_NUMBER, natToLE_length, writeDescriptors_length metas descB h4]
          omega

/-! ### Decomposing a successful `write` -/

theorem getColumn_length (name : PyStr) (data : List Row) (vs : List Value)
    (h : getColumn name data = Except.ok vs) : vs.length = data.length := by
  induction data generalizing vs with
  | nil =>
    rw [getColumn] at h
    cases h
    rfl
  | cons row rest ih =>
    rw [getColumn] at h
    revert h
    match h1 : row.lookup name with
    | Option.none => intro h; exact absurd h (by simp)
    | Option.some v =>
      match h2 : getColumn name rest with
      | Except.error e => intro h; exact absurd h (by simp)
      | Except.ok ws =>
        intro h
        cases h
        simp [ih ws h2]

theorem buildColumns_forall (data : List Row) (names : List PyStr) (built : List BuiltColumn)
    (h : buildColumns data names = Except.ok built) :
    List.Forall₂ (fun (name : PyStr) (b : BuiltColumn) =>
      b.name = name ∧ getColumn name data = Except.ok b.values ∧
        b.dtype = inferColumnType b.values) names built := by
  induction names generalizing built with
  | nil =>
    rw [buildColumns] at h
    cases h
    exact List.Forall₂.nil
  | cons name rest ih =>
    rw [buildColumns] at h
    revert h
    match h1 : getColumn name data with
    | Except.error e => intro h; exact absurd h (by simp)
    | Except.ok vals =>
      match h2 : buildColumns data rest with
      | Except.error e => intro h; exact absurd h (by simp)
      | Except.ok cols =>
        intro h
        cases h
        exact List.Forall₂.cons ⟨rfl, h1, rfl⟩ (ih cols h2)

theorem processColumns_forall (C : Compressor) (built : List BuiltColumn)
    (procs : List ProcessedColumn) (h : processColumns C built = Except.ok procs) :
    List.Forall₂ (fun (b : BuiltColumn) (p : ProcessedColumn) =>
      p.name = b.name ∧ p.dtype = b.dtype ∧
        ∃ u, serializeColumn b.values b.dtype = Except.ok u ∧
          p.compressed = C.compress u ∧ p.uncompressedSize = u.length) built procs := by
  induction built generalizing procs with
  | nil =>
    rw [processColumns] at h
    cases h
    exact List.Forall₂.nil
  | cons b bs ih =>
    rw [processColumns] at h
    revert h
    match h1 : serializeColumn b.values b.dtype with
    | Except.error e => intro h; exact absurd h (by simp)
    | Except.ok u =>
      match h2 : processColumns C bs with
      | Except.error e => intro h; exact absurd h (by simp)
      | Except.ok rest =>
        intro h
        cases h
        exact List.Forall₂.cons ⟨rfl, rfl, u, h1, rfl, rfl⟩ (ih rest h2)

theorem write_ok_parts {C : Compressor} {data : List Row} {bytes : List Nat}
    (h : write C data = Except.ok bytes) :
    ∃ r0 trest built procs header,
      data = r0 :: trest ∧
      buildColumns data (r0.map Prod.fst) = Except.ok built ∧
      processColumns C built = Except.ok procs ∧
      mkHeaderBytes data.length (assignOffsets (headerSizeOf procs) procs) =
        Except.ok header ∧
      bytes = header ++ (procs.map (fun c => c.compressed)).flatten := by
  match data with
  | [] => exact absurd h (by simp [write])
  | r0 :: trest =>
    rw [write] at h
    match h1 : buildColumns (r0 :: trest) (r0.map Prod.fst) with
    | Except.error e =>
      simp only [h1] at h
      exact Except.noConfusion h
    | Except.ok built =>
      simp only [h1] at h
      match h2 : processColumns C built with
      | Except.error e =>
        simp only [h2] at h
        exact Except.noConfusion h
      | Except.ok procs =>
        simp only [h2] at h
        match h3 : mkHeaderBytes (r0 :: trest).length
            (assignOffsets (headerSizeOf procs) procs) with
        | Except.error e =>
          simp only [h3] at h
          exact Except.noConfusion h
        | Except.ok header =>
          simp only [h3, Except.ok.injEq] at h
          exact ⟨r0, trest, built, procs, header, rfl, h1, h2, h3, h.symm⟩

theorem assignOffsets_sum_names (cur : Nat) (procs : List ProcessedColumn) :
    ((assignOffsets cur procs).map (fun m => 29 + m.name.length)).sum =
      (procs.map (fun c => 29 + c.name.length)).sum := by
  induction procs generalizing cur with
  | nil => rfl
  | cons p ps ih => simp [assignOffsets, ih]

theorem assignOffsets_names (cur : Nat) (procs : List ProcessedColumn) :
    (assignOffsets cur procs).map (fun m => m.name) = procs.map (fun c => c.name) := by
  induction procs generalizing cur with
  | nil => rfl
  | cons p ps ih => simp [assignOffsets, ih]

theorem headerSizeOf_eq (procs : List ProcessedColumn) :
    headerSizeOf procs = 20 + (procs.map (fun c => 29 + c.name.length)).sum := by
  unfold headerSizeOf
  congr 1
  apply congrArg
  apply List.map_congr_left
  intro c _
  omega

/-- A generic `Forall₂` projection: componentwise-equal images give equal
maps. -/
theorem forall₂_map_eq {α β γ : Type} {R : α → β → Prop} {l1 : List α} {l2 : List β}
    (h : List.Forall₂ R l1 l2) (f : α → γ) (g : β → γ)
    (hfg : ∀ a b, R a b → f a = g b) : l1.map f = l2.map g := by
  induction h with
  | nil => rfl
  | cons hr _ ih => simp [hfg _ _ hr, ih]

/-! ### Materializing the columns of an encoded file -/

/-- Walking descriptors laid out by `assignOffsets` over a file whose tail
holds exactly the corresponding compressed blocks materializes precisely
the requested columns, in descriptor order. -/
theorem materializeColumns_assignOffsets (C : Compressor) (r : CFFReader)
    (requested : List PyStr) (procs : List ProcessedColumn)
    (cols : List (PyStr × List Value))
    (hf : List.Forall₂ (fun (p : ProcessedColumn) (pc : PyStr × List Value) =>
      p.name = pc.1 ∧ ∃ u, p.compressed = C.compress u ∧ p.uncompressedSize = u.length ∧
        deserializeColumn r.numRows p.dtype u = Except.ok pc.2) procs cols) :
    ∀ (cur : Nat) (extra : List Nat),
      r.fileBytes.drop cur = (procs.map (fun c => c.compressed)).flatten ++ extra →
      materializeColumns C r requested (assignOffsets cur procs) =
        Except.ok (cols.filter (fun pc => requested.contains pc.1)) := by
  induction hf with
  | nil =>
    intro cur extra _
    rfl
  | @cons p pc ps pcs hrel hf ih =>
    intro cur extra hdrop
    obtain ⟨hname, u, hcomp, husize, hdes⟩ := hrel
    have hblock : (r.fileBytes.drop cur).take p.compressed.length = p.compressed := by
      rw [hdrop]
      simp only [List.map_cons, List.flatten_cons, List.append_assoc]
      rw [List.take_left]
    have hnext : r.fileBytes.drop (cur + p.compressed.length) =
        (ps.map (fun c => c.compressed)).flatten ++ extra := by
      have hdd : r.fileBytes.drop (cur + p.compressed.length) =
          (r.fileBytes.drop cur).drop p.compressed.length := by
        rw [List.drop_drop, Nat.add_comm]
      rw [hdd, hdrop]
      simp only [List.map_cons, List.flatten_cons, List.append_assoc]
      rw [List.drop_left]
    rw [assignOffsets, materializeColumns, List.filter_cons]
    dsimp only
    simp only [hname]
    by_cases hreq : requested.contains pc.1
    · rw [if_pos hreq, if_pos hreq]
      have hread : readColumnData C r ⟨pc.1, p.dtype, cur, p.compressed.length,
          p.uncompressedSize⟩ = Except.ok u := by
        unfold readColumnData
        dsimp only
        rw [hblock, hcomp, C.decompress_compress]
        show (if u.length = p.uncompressedSize then Except.ok u
          else Except.error Err.integrityMismatch) = Except.ok u
        rw [if_pos husize.symm]
      rw [hread]
      show (match deserializeColumn r.numRows p.dtype u with
        | Except.error e => Except.error e
        | Except.ok vals =>
          match materializeColumns C r requested (assignOffsets (cur + p.compressed.length) ps) with
          | Except.error e => Except.error e
          | Except.ok rest => Except.ok ((pc.1, vals) :: rest)) = _
      rw [hdes, ih (cur + p.compressed.length) extra hnext]
    · rw [if_neg hreq, if_neg hreq]
      exact ih (cur + p.compressed.length) extra hnext

/-! ### Association-list and transposition helpers -/

theorem forall₂_mem_right {α β : Type} {R : α → β → Prop} {l1 : List α} {l2 : List β}
    (h : List.Forall₂ R l1 l2) : ∀ b ∈ l2, ∃ a ∈ l1, R a b := by
  induction h with
  | nil => intro b hb; exact absurd hb (by simp)
  | @cons a b as bs hr _ ih =>
    intro c hc
    rcases List.mem_cons.mp hc with hc | hc
    · exact ⟨a, List.mem_cons_self a as, hc ▸ hr⟩
    · obtain ⟨a2, ha2, hr2⟩ := ih c hc
      exact ⟨a2, List.mem_cons_of_mem a ha2, hr2⟩

theorem forall₂_map_right {α β γ : Type} {R : α → β → Prop} {S : α → γ → Prop}
    {l1 : List α} {l2 : List β} (g : β → γ) (h : List.Forall₂ R l1 l2)
    (him : ∀ a b, R a b → S a (g b)) : List.Forall₂ S l1 (l2.map g) := by
  induction h with
  | nil => exact List.Forall₂.nil
  | cons hr _ ih => exact List.Forall₂.cons (him _ _ hr) ih

theorem lookup_map_snd {δ : Type} (cols : List (PyStr × List Value))
    (g : List Value → δ) (n : PyStr) :
    List.lookup n (cols.map (fun pc => (pc.1, g pc.2))) = (List.lookup n cols).map g := by
  induction cols with
  | nil => rfl
  | cons pc rest ih =>
    by_cases hk : n = pc.1
    · have hb : (n == pc.1) = true := beq_iff_eq.mpr hk
      simp [List.lookup, hb]
    · have hb : (n == pc.1) = false := beq_eq_false_iff_ne.mpr hk
      simp only [List.map_cons, List.lookup, hb]
      exact ih

theorem lookup_filter_keeps (cols : List (PyStr × List Value)) (S : List PyStr) (n : PyStr)
    (hn : S.contains n = true) :
    List.lookup n (cols.filter (fun pc => S.contains pc.1)) = List.lookup n cols := by
  induction cols with
  | nil => rfl
  | cons pc rest ih =>
    by_cases hk : n = pc.1
    · subst hk
      rw [List.filter_cons, if_pos (by simpa using hn)]
      have hb : (pc.1 == pc.1) = true := beq_iff_eq.mpr rfl
      simp [List.lookup, hb]
    · have hb : (n == pc.1) = false := beq_eq_false_iff_ne.mpr hk
      rw [List.filter_cons]
      by_cases hkeep : S.contains pc.1 = true
      · rw [if_pos (by simpa using hkeep)]
        simp only [List.lookup, hb]
        exact ih
      · rw [if_neg (by simpa using hkeep)]
        rw [ih]
        simp only [List.lookup, hb]

theorem lookup_some_of_mem_keys {γ : Type} (l : List (PyStr × γ)) (n : PyStr)
    (h : n ∈ l.map Prod.fst) : ∃ v, List.lookup n l = Option.some v := by
  induction l with
  | nil => exact absurd h (by simp)
  | cons pc rest ih =>
    by_cases hk : n = pc.1
    · have hb : (n == pc.1) = true := beq_iff_eq.mpr hk
      exact ⟨pc.2, by simp [List.lookup, hb]⟩
    · have hb : (n == pc.1) = false := beq_eq_false_iff_ne.mpr hk
      have h2 : n ∈ rest.map Prod.fst := by
        rw [List.map_cons] at h
        rcases List.mem_cons.mp h with hc | hc
        · exact absurd hc hk
        · exact hc
      obtain ⟨v, hv⟩ := ih h2
      refine ⟨v, ?_⟩
      simp only [List.lookup, hb]
      exact hv

theorem lookup_some_mem {γ : Type} (l : List (PyStr × γ)) (n : PyStr) (v : γ)
    (h : List.lookup n l = Option.some v) : (n, v) ∈ l := by
  induction l with
  | nil => exact absurd h (by simp [List.lookup])
  | cons pc rest ih =>
    rw [List.lookup] at h
    by_cases hk : n = pc.1
    · have hb : (n == pc.1) = true := beq_iff_eq.mpr hk
      rw [hb] at h
      simp only at h
      cases h
      rw [hk, Prod.mk.eta]
      exact List.mem_cons_self pc rest
    · have hb : (n == pc.1) = false := beq_eq_false_iff_ne.mpr hk
      rw [hb] at h
      simp only at h
      exact List.mem_cons_of_mem pc (ih h)

theorem range'_map_getD {γ : Type} (f : Nat → γ) (d : γ) :
    ∀ (N start i : Nat), i < N → (((List.range' start N).map f).getD i d) = f (start + i) := by
  intro N
  induction N with
  | zero => intro start i hi; omega
  | succ N ih =>
    intro start i hi
    have hr : List.range' start (N + 1) = start :: List.range' (start + 1) N := rfl
    rw [hr]
    match i with
    | 0 => simp
    | i + 1 =>
      have := ih (start + 1) i (by omega)
      simp only [List.map_cons, List.getD_cons_succ]
      rw [this]
      congr 1
      omega

theorem buildRow_ok (cols : List (PyStr × List Value)) (i : Nat)
    (h : ∀ pc ∈ cols, i < (pc.2 : List Value).length) :
    buildRow cols i =
      Except.ok (cols.map (fun pc => (pc.1, (pc.2).getD i (Value.str [])))) := by
  induction cols with
  | nil => rfl
  | cons pc rest ih =>
    obtain ⟨n, vs⟩ := pc
    have hi : i < vs.length := by simpa using h (n, vs) (List.mem_cons_self _ _)
    have hget : vs[i]? = Option.some (vs.getD i (Value.str [])) := by
      rw [List.getElem?_eq_getElem hi, List.getD_eq_getElem vs (Value.str []) hi]
    rw [buildRow, hget, ih (fun q hq => h q (List.mem_cons_of_mem _ hq))]
    rfl

theorem buildRowsFrom_ok (cols : List (PyStr × List Value)) (N : Nat)
    (hlen : ∀ pc ∈ cols, (pc.2 : List Value).length = N) :
    ∀ (count start : Nat), start + count ≤ N →
      buildRowsFrom cols start count =
        Except.ok ((List.range' start count).map
          (fun i => cols.map (fun pc => (pc.1, (pc.2).getD i (Value.str []))))) := by
  intro count
  induction count with
  | zero => intro start _; rfl
  | succ count ih =>
    intro start hle
    have hrow := buildRow_ok cols start (fun pc hpc => by rw [hlen pc hpc]; omega)
    rw [buildRowsFrom, hrow, ih (start + 1) (by omega)]
    rfl

/-! ### The reader state of an encoded file -/

theorem write_reader_state {C : Compressor} {data : List Row} {bytes : List Nat}
    (h : write C data = Except.ok bytes) :
    ∃ r0 trest built procs,
      data = r0 :: trest ∧
      buildColumns data (r0.map Prod.fst) = Except.ok built ∧
      processColumns C built = Except.ok procs ∧
      readHeader bytes =
        Except.ok ⟨bytes, data.length, assignOffsets (headerSizeOf procs) procs⟩ ∧
      bytes.drop (headerSizeOf procs) = (procs.map (fun c => c.compressed)).flatten := by
  obtain ⟨r0, trest, built, procs, header, hdata, hbuild, hproc, hmk, hbytes⟩ :=
    write_ok_parts h
  have hhlen : header.length = headerSizeOf procs := by
    rw [mkHeaderBytes_length data.length _ header hmk, assignOffsets_sum_names,
      headerSizeOf_eq]
  refine ⟨r0, trest, built, procs, hdata, hbuild, hproc, ?_, ?_⟩
  · rw [hbytes]
    exact mkHeaderBytes_roundtrip data.length _ header hmk _
  · rw [hbytes, ← hhlen, List.drop_left]

theorem encoded_allCols {C : Compressor} {data : List Row} {bytes : List Nat}
    (h : write C data = Except.ok bytes) {r : CFFReader}
    (hr : readHeader bytes = Except.ok r) :
    ∃ allCols : List (PyStr × List Value),
      (∀ requested, materializeColumns C r requested r.columnsMetadata =
        Except.ok (allCols.filter (fun pc => requested.contains pc.1))) ∧
      allCols.map Prod.fst = (data.headD []).map Prod.fst ∧
      (∀ pc ∈ allCols, (pc.2 : List Value).length = data.length) ∧
      r.numRows = data.length ∧ r.fileBytes = bytes ∧
      getColumnNames r = (data.headD []).map Prod.fst := by
  obtain ⟨r0, trest, built, procs, hdata, hbuild, hproc, hrh, hdrop⟩ := write_reader_state h
  rw [hrh] at hr
  cases hr
  have hbf := buildColumns_forall data _ built hbuild
  have hpf := processColumns_forall C built procs hproc
  have hlen : ∀ b ∈ built, b.values.length = data.length := by
    intro b hb
    obtain ⟨name, _, _, hget, _⟩ := forall₂_mem_right hbf b hb
    exact getColumn_length name data b.values hget
  -- build the deserialized column list by recursion over the two Forall₂s
  have hcols : ∀ (bs : List BuiltColumn) (ps : List ProcessedColumn),
      List.Forall₂ (fun (b : BuiltColumn) (p : ProcessedColumn) =>
        p.name = b.name ∧ p.dtype = b.dtype ∧
          ∃ u, serializeColumn b.values b.dtype = Except.ok u ∧
            p.compressed = C.compress u ∧ p.uncompressedSize = u.length) bs ps →
      (∀ b ∈ bs, b.values.length = data.length) →
      ∃ cols : List (PyStr × List Value),
        List.Forall₂ (fun (p : ProcessedColumn) (pc : PyStr × List Value) =>
          p.name = pc.1 ∧ ∃ u, p.compressed = C.compress u ∧
            p.uncompressedSize = u.length ∧
            deserializeColumn data.length p.dtype u = Except.ok pc.2) ps cols ∧
        (∀ pc ∈ cols, (pc.2 : List Value).length = data.length) ∧
        cols.map Prod.fst = bs.map (fun b => b.name) := by
    intro bs ps hf
    induction hf with
    | nil =>
      intro _
      exact ⟨[], List.Forall₂.nil, by simp, rfl⟩
    | @cons b p bs2 ps2 hrel hf2 ih =>
      intro hlen2
      obtain ⟨hnm, hdt, u, hser, hcomp, husz⟩ := hrel
      obtain ⟨cols2, hf3, hlen3, hnames3⟩ := ih
        (fun x hx => hlen2 x (List.mem_cons_of_mem b hx))
      have hvlen : b.values.length = data.length := hlen2 b (List.mem_cons_self b bs2)
      obtain ⟨ws, hdes, hwlen⟩ := serializeColumn_shape b.values b.dtype u hser
      rw [hvlen] at hdes hwlen
      refine ⟨(p.name, ws) :: cols2, ?_, ?_, ?_⟩
      · refine List.Forall₂.cons ⟨rfl, u, hcomp, husz, ?_⟩ hf3
        rw [hdt]
        exact hdes
      · intro pc hpc
        rcases List.mem_cons.mp hpc with hpc | hpc
        · rw [hpc]
          exact hwlen
        · exact hlen3 pc hpc
      · simp [hnm, hnames3]
  obtain ⟨cols, hf, hclen, hcnames⟩ := hcols built procs hpf hlen
  have hbuiltNames : built.map (fun b => b.name) = (data.headD []).map Prod.fst := by
    rw [hdata]
    have hh := forall₂_map_eq hbf id (fun b => b.name) (fun a b hab => hab.1.symm)
    simp only [List.map_id] at hh
    simp only [List.headD_cons]
    exact hh.symm
  refine ⟨cols, ?_, ?_, hclen, rfl, rfl, ?_⟩
  · intro requested
    have hmat := materializeColumns_assignOffsets C
      ⟨bytes, data.length, assignOffsets (headerSizeOf procs) procs⟩ requested procs cols
      hf (headerSizeOf procs) [] (by simpa using hdrop)
    exact hmat
  · rw [hcnames]
    exact hbuiltNames
  · show (assignOffsets (headerSizeOf procs) procs).map (fun m => m.name) = _
    rw [assignOffsets_names]
    have h1 := forall₂_map_eq hpf (fun b => b.name) (fun p => p.name)
      (fun a b hab => hab.1.symm)
    rw [← h1]
    exact hbuiltNames

/-! ### Tables as the encoder sees them -/

/-- The values of one column, gathered row by row (defined for rows that
all carry the key; rows missing it are skipped, but a well-formed table
has none). -/
def columnOf (data : List Row) (name : PyStr) : List Value :=
  data.filterMap (fun r => r.lookup name)

/-- The keys of the first row, which `CFFWriter.write` takes as the
column set. -/
def firstRowKeys (data : List Row) : List PyStr := (data.headD []).map Prod.fst

/-- A table of Python dicts: nonempty, keys distinct within each row (as
in a dict), and every row has exactly the first row's key set. -/
def WellFormedTable (data : List Row) : Prop :=
  data ≠ [] ∧ (firstRowKeys data).Nodup ∧
    ∀ r ∈ data, (r.map Prod.fst).Nodup ∧
      (∀ n ∈ r.map Prod.fst, n ∈ firstRowKeys data) ∧
      (∀ n ∈ firstRowKeys data, n ∈ r.map Prod.fst)

instance (data : List Row) : Decidable (WellFormedTable data) := by
  unfold WellFormedTable
  infer_instance

/-- Every value of every column matches the type inferred for that
column. -/
def MatchesInferred (data : List Row) : Prop :=
  ∀ name ∈ firstRowKeys data, ∀ v ∈ columnOf data name,
    valueMatchesType v (inferColumnType (columnOf data name)) = true

instance (data : List Row) : Decidable (MatchesInferred data) := by
  unfold MatchesInferred
  infer_instance

/-- The equality Python's `==` puts on two dict rows: same key set and
the same value under every key (values compared exactly, which is within
any floating-point tolerance). -/
def rowEquiv (r1 r2 : Row) : Prop :=
  (∀ n ∈ r1.map Prod.fst, n ∈ r2.map Prod.fst) ∧
  (∀ n ∈ r2.map Prod.fst, n ∈ r1.map Prod.fst) ∧
  (∀ n ∈ r1.map Prod.fst, List.lookup n r1 = List.lookup n r2)

instance (r1 r2 : Row) : Decidable (rowEquiv r1 r2) := by
  unfold rowEquiv
  infer_instance

theorem getColumn_eq_columnOf (data : List Row) (name : PyStr)
    (hall : ∀ r ∈ data, ∃ v, r.lookup name = Option.some v) :
    getColumn name data = Except.ok (columnOf data name) := by
  induction data with
  | nil => rfl
  | cons row rest ih =>
    obtain ⟨v, hv⟩ := hall row (List.mem_cons_self row rest)
    have hcol : columnOf (row :: rest) name = v :: columnOf rest name := by
      simp [columnOf, List.filterMap_cons, hv]
    rw [getColumn, hv, ih (fun r hr => hall r (List.mem_cons_of_mem row hr)), hcol]

theorem columnOf_length (data : List Row) (name : PyStr)
    (hall : ∀ r ∈ data, ∃ v, r.lookup name = Option.some v) :
    (columnOf data name).length = data.length := by
  have h := getColumn_eq_columnOf data name hall
  exact getColumn_length name data _ h

theorem table_lookup_columnOf (t : List Row) (n : PyStr)
    (hall : ∀ r ∈ t, ∃ v, r.lookup n = Option.some v) :
    ∀ i, i < t.length →
      (t.getD i []).lookup n = Option.some ((columnOf t n).getD i (Value.str [])) := by
  induction t with
  | nil => intro i hi; exact absurd hi (by simp)
  | cons row rest ih =>
    intro i hi
    obtain ⟨v, hv⟩ := hall row (List.mem_cons_self row rest)
    have hcol : columnOf (row :: rest) n = v :: columnOf rest n := by
      simp [columnOf, List.filterMap_cons, hv]
    match i with
    | 0 => simpa [hcol] using hv
    | i + 1 =>
      simp only [List.getD_cons_succ, hcol]
      exact ih (fun r hr => hall r (List.mem_cons_of_mem row hr)) i (by simpa using hi)

theorem lookup_map_key {γ : Type} (l : List PyStr) (f : PyStr → γ) (n : PyStr) (hn : n ∈ l) :
    List.lookup n (l.map (fun m => (m, f m))) = Option.some (f n) := by
  induction l with
  | nil => exact absurd hn (by simp)
  | cons m rest ih =>
    by_cases hk : n = m
    · subst hk
      have hb : (n == n) = true := beq_iff_eq.mpr rfl
      simp [List.lookup, hb]
    · have hb : (n == m) = false := beq_eq_false_iff_ne.mpr hk
      simp only [List.map_cons, List.lookup, hb]
      exact ih (by rcases List.mem_cons.mp hn with hc | hc
                   · exact absurd hc hk
                   · exact hc)

theorem forall₂_trans {α β γ : Type} {R : α → β → Prop} {S : β → γ → Prop} {T : α → γ → Prop}
    {l1 : List α} {l2 : List β} {l3 : List γ}
    (h1 : List.Forall₂ R l1 l2) (h2 : List.Forall₂ S l2 l3)
    (hi : ∀ a b c, R a b → S b c → T a c) : List.Forall₂ T l1 l3 := by
  induction h1 generalizing l3 with
  | nil =>
    cases h2
    exact List.Forall₂.nil
  | cons hr _ ih =>
    cases h2 with
    | cons hs hrest => exact List.Forall₂.cons (hi _ _ _ hr hs) (ih hrest)

theorem wf_lookup_some {data : List Row} (hwf : WellFormedTable data) :
    ∀ name ∈ firstRowKeys data, ∀ row ∈ data, ∃ v, row.lookup name = Option.some v := by
  intro name hn row hrow
  exact lookup_some_of_mem_keys row name ((hwf.2.2 row hrow).2.2 name hn)

/-- For a well-formed, type-matching table, materializing any requested
subset of an encoded file's columns recovers the original columns
exactly. -/
theorem encoded_allCols_exact {C : Compressor} {data : List Row} {bytes : List Nat}
    (henc : write C data = Except.ok bytes)
    (hwf : WellFormedTable data) (hm : MatchesInferred data)
    {r : CFFReader} (hr : readHeader bytes = Except.ok r) :
    (∀ requested, materializeColumns C r requested r.columnsMetadata =
      Except.ok (((firstRowKeys data).map (fun n => (n, columnOf data n))).filter
        (fun pc => requested.contains pc.1))) ∧
    r.numRows = data.length ∧
    getColumnNames r = firstRowKeys data := by
  obtain ⟨r0, trest, built, procs, hdata, hbuild, hproc, hrh, hdrop⟩ := write_reader_state henc
  rw [hrh] at hr
  cases hr
  have hnamesEq : r0.map Prod.fst = firstRowKeys data := by
    simp [firstRowKeys, hdata]
  have hbf := buildColumns_forall data _ built hbuild
  rw [hnamesEq] at hbf
  have hpf := processColumns_forall C built procs hproc
  have key : ∀ (ns : List PyStr) (bs : List BuiltColumn) (ps : List ProcessedColumn),
      (∀ n ∈ ns, n ∈ firstRowKeys data) →
      List.Forall₂ (fun (name : PyStr) (b : BuiltColumn) =>
        b.name = name ∧ getColumn name data = Except.ok b.values ∧
          b.dtype = inferColumnType b.values) ns bs →
      List.Forall₂ (fun (b : BuiltColumn) (p : ProcessedColumn) =>
        p.name = b.name ∧ p.dtype = b.dtype ∧
          ∃ u, serializeColumn b.values b.dtype = Except.ok u ∧
            p.compressed = C.compress u ∧ p.uncompressedSize = u.length) bs ps →
      List.Forall₂ (fun (p : ProcessedColumn) (pc : PyStr × List Value) =>
        p.name = pc.1 ∧ ∃ u, p.compressed = C.compress u ∧ p.uncompressedSize = u.length ∧
          deserializeColumn data.length p.dtype u = Except.ok pc.2) ps
        (ns.map (fun n => (n, columnOf data n))) := by
    intro ns
    induction ns with
    | nil =>
      intro bs ps _ h1 h2
      cases h1
      cases h2
      exact List.Forall₂.nil
    | cons name ns2 ih =>
      intro bs ps hmem h1 h2
      cases h1 with
      | cons hb1 hrest1 =>
        cases h2 with
        | cons hb2 hrest2 =>
          obtain ⟨hbn, hget, hbd⟩ := hb1
          obtain ⟨hpn, hpd, u, hser, hcomp, husz⟩ := hb2
          have hnmem := hmem name (List.mem_cons_self name ns2)
          have hlooked := wf_lookup_some hwf name hnmem
          have hcols : getColumn name data = Except.ok (columnOf data name) :=
            getColumn_eq_columnOf data name hlooked
          rw [hget] at hcols
          have hbvals : _ = columnOf data name := (Except.ok.injEq _ _).mp hcols
          refine List.Forall₂.cons ?_ (ih _ _ (fun x hx => hmem x (List.mem_cons_of_mem name hx))
            hrest1 hrest2)
          refine ⟨by rw [hpn, hbn], u, hcomp, husz, ?_⟩
          have hmatch : ∀ v ∈ columnOf data name,
              valueMatchesType v (inferColumnType (columnOf data name)) = true :=
            hm name hnmem
          rw [← hbvals] at hmatch
          rw [← hbd] at hmatch
          have hrt := serializeColumn_roundtrip _ _ u hmatch hser
          have hblen : (columnOf data name).length = data.length :=
            columnOf_length data name hlooked
          rw [hbvals] at hrt
          rw [hblen] at hrt
          rw [hpd]
          exact hrt
  have hforall := key (firstRowKeys data) built procs (fun n hn => hn) hbf hpf
  refine ⟨?_, rfl, ?_⟩
  · intro requested
    exact materializeColumns_assignOffsets C
      ⟨bytes, data.length, assignOffsets (headerSizeOf procs) procs⟩ requested procs _
      hforall (headerSizeOf procs) [] (by simpa using hdrop)
  · show (assignOffsets (headerSizeOf procs) procs).map (fun m => m.name) = _
    rw [assignOffsets_names]
    have h1 := forall₂_map_eq hpf (fun b => b.name) (fun p => p.name)
      (fun a b hab => hab.1.symm)
    have h2 := forall₂_map_eq hbf id (fun b => b.name) (fun a b hab => hab.1.symm)
    simp only [List.map_id] at h2
    rw [← h1, ← h2]

/-! ### Claim theorems -/

/-- **C1**: for every table with at least one row whose values match their
columns' inferred types, decoding the file produced by `encode` yields the
original table under the type-aware row equality (the decoded values are
in fact exactly equal, which is within the 1e-9 floating-point tolerance;
strings are equal exactly). -/
theorem c1_round_trip (C : Compressor) (t : List Row) (bytes : List Nat)
    (hwf : WellFormedTable t) (hm : MatchesInferred t)
    (henc : write C t = Except.ok bytes) :
    ∃ t2, decodeFile C bytes = Except.ok t2 ∧ t2.length = t.length ∧
      ∀ i, i < t.length → rowEquiv (t2.getD i []) (t.getD i []) := by
  obtain ⟨r, hr⟩ : ∃ r, readHeader bytes = Except.ok r := by
    obtain ⟨_, _, _, _, _, _, _, hrh, _⟩ := write_reader_state henc
    exact ⟨_, hrh⟩
  obtain ⟨hmat, hnum, hnames⟩ := encoded_allCols_exact henc hwf hm hr
  have hcontains : ∀ pc ∈ (firstRowKeys t).map (fun n => (n, columnOf t n)),
      (getColumnNames r).contains pc.1 = true := by
    intro pc hpc
    rw [hnames]
    obtain ⟨n, hn, he⟩ := List.mem_map.mp hpc
    rw [← he]
    simpa using hn
  have hfilterSelf : ((firstRowKeys t).map (fun n => (n, columnOf t n))).filter
      (fun pc => (getColumnNames r).contains pc.1) =
      (firstRowKeys t).map (fun n => (n, columnOf t n)) :=
    List.filter_eq_self.mpr hcontains
  have hreadAll : readColumns C r Option.none =
      Except.ok ((firstRowKeys t).map (fun n => (n, columnOf t n))) := by
    unfold readColumns
    rw [if_pos (List.all_eq_true.mpr (fun n hn => by simpa using hn))]
    rw [hmat (getColumnNames r), hfilterSelf]
  have hcollen : ∀ pc ∈ (firstRowKeys t).map (fun n => (n, columnOf t n)),
      (pc.2 : List Value).length = t.length := by
    intro pc hpc
    obtain ⟨n, hn, he⟩ := List.mem_map.mp hpc
    rw [← he]
    exact columnOf_length t n (wf_lookup_some hwf n hn)
  have hrows := buildRowsFrom_ok ((firstRowKeys t).map (fun n => (n, columnOf t n)))
    t.length hcollen t.length 0 (by omega)
  have hread : read C r = Except.ok ((List.range' 0 t.length).map
      (fun i => ((firstRowKeys t).map (fun n => (n, columnOf t n))).map
        (fun pc => (pc.1, (pc.2).getD i (Value.str []))))) := by
    unfold read
    rw [hreadAll, hnum]
    exact hrows
  refine ⟨(List.range' 0 t.length).map
      (fun i => ((firstRowKeys t).map (fun n => (n, columnOf t n))).map
        (fun pc => (pc.1, (pc.2).getD i (Value.str [])))), ?_, ?_, ?_⟩
  · unfold decodeFile
    rw [hr]
    exact hread
  · simp
  · intro i hi
    have ht2i : (((List.range' 0 t.length).map
        (fun i => ((firstRowKeys t).map (fun n => (n, columnOf t n))).map
          (fun pc => (pc.1, (pc.2).getD i (Value.str []))))).getD i []) =
        ((firstRowKeys t).map (fun n => (n, columnOf t n))).map
          (fun pc => (pc.1, (pc.2).getD i (Value.str []))) := by
      have := range'_map_getD
        (fun j => ((firstRowKeys t).map (fun n => (n, columnOf t n))).map
          (fun pc => (pc.1, (pc.2).getD j (Value.str [])))) [] t.length 0 i hi
      simpa using this
    rw [ht2i]
    have hrowmem : t.getD i [] ∈ t := by
      rw [List.getD_eq_getElem t [] hi]
      exact List.getElem_mem hi
    obtain ⟨hnodup, hsub1, hsub2⟩ := hwf.2.2 _ hrowmem
    have hkeys1 : (((firstRowKeys t).map (fun n => (n, columnOf t n))).map
        (fun pc => (pc.1, (pc.2).getD i (Value.str [])))).map Prod.fst = firstRowKeys t := by
      simp only [List.map_map]
      exact List.map_id _
    refine ⟨?_, ?_, ?_⟩
    · intro n hn
      rw [hkeys1] at hn
      exact hsub2 n hn
    · intro n hn
      rw [hkeys1]
      exact hsub1 n hn
    · intro n hn
      rw [hkeys1] at hn
      have hleft : List.lookup n (((firstRowKeys t).map (fun n => (n, columnOf t n))).map
          (fun pc => (pc.1, (pc.2).getD i (Value.str [])))) =
          Option.some ((columnOf t n).getD i (Value.str [])) := by
        have hms := lookup_map_snd ((firstRowKeys t).map (fun m => (m, columnOf t m)))
          (fun vs => vs.getD i (Value.str [])) n
        simp only [lookup_map_key (firstRowKeys t) (fun m => columnOf t m) n hn] at hms
        exact hms
      rw [hleft]
      exact (table_lookup_columnOf t n (wf_lookup_some hwf n hn) i hi).symm

/-- **C2**: on every encoded file, for every non-empty subset `S` of its
column names, `readColumns(S)` returns exactly the columns named in `S`,
and the `i`-th value of each returned column equals the value under that
name in the `i`-th row of `readAll()`. -/
theorem c2_projection (C : Compressor) (t : List Row) (bytes : List Nat) (r : CFFReader)
    (S : List PyStr) (henc : write C t = Except.ok bytes)
    (hr : readHeader bytes = Except.ok r)
    (hS1 : S ≠ []) (hS2 : ∀ n ∈ S, n ∈ getColumnNames r) :
    ∃ cols rows,
      readColumns C r (Option.some S) = Except.ok cols ∧
      read C r = Except.ok rows ∧
      (∀ n : PyStr, n ∈ cols.map Prod.fst ↔ n ∈ S) ∧
      rows.length = r.numRows ∧
      (∀ n ∈ S, ∃ vs, List.lookup n cols = Option.some vs ∧ vs.length = r.numRows ∧
        ∀ i, i < r.numRows → List.lookup n (rows.getD i []) =
          Option.some (vs.getD i (Value.str []))) := by
  obtain ⟨allCols, hmatAll, hnamesAll, hlenAll, hnum, _, hschema⟩ := encoded_allCols henc hr
  have hkeysEq : allCols.map Prod.fst = getColumnNames r := by
    rw [hnamesAll, hschema]
  have hSmem : ∀ n ∈ S, n ∈ allCols.map Prod.fst := by
    intro n hn
    rw [hkeysEq]
    exact hS2 n hn
  have hcolsS : readColumns C r (Option.some S) =
      Except.ok (allCols.filter (fun pc => S.contains pc.1)) := by
    unfold readColumns
    rw [if_pos (List.all_eq_true.mpr (fun n hn => by simpa using hS2 n hn))]
    exact hmatAll S
  have hreadAll : readColumns C r Option.none = Except.ok allCols := by
    unfold readColumns
    rw [if_pos (List.all_eq_true.mpr (fun n hn => by simpa using hn))]
    rw [hmatAll (getColumnNames r)]
    have hself : allCols.filter (fun pc => (getColumnNames r).contains pc.1) = allCols := by
      apply List.filter_eq_self.mpr
      intro pc hpc
      have : pc.1 ∈ getColumnNames r := by
        rw [← hkeysEq]
        exact List.mem_map_of_mem Prod.fst hpc
      simpa using this
    rw [hself]
  have hlenAll2 : ∀ pc ∈ allCols, (pc.2 : List Value).length = r.numRows := by
    intro pc hpc
    rw [hnum]
    exact hlenAll pc hpc
  have hrows := buildRowsFrom_ok allCols r.numRows hlenAll2 r.numRows 0 (by omega)
  have hread : read C r = Except.ok ((List.range' 0 r.numRows).map
      (fun i => allCols.map (fun pc => (pc.1, (pc.2).getD i (Value.str []))))) := by
    unfold read
    rw [hreadAll]
    exact hrows
  refine ⟨allCols.filter (fun pc => S.contains pc.1),
    (List.range' 0 r.numRows).map
      (fun i => allCols.map (fun pc => (pc.1, (pc.2).getD i (Value.str [])))),
    hcolsS, hread, ?_, by simp, ?_⟩
  · intro n
    constructor
    · intro hn
      obtain ⟨pc, hpc, he⟩ := List.mem_map.mp hn
      have := (List.mem_filter.mp hpc).2
      rw [he] at this
      simpa using this
    · intro hn
      obtain ⟨pc, hpc, he⟩ := List.mem_map.mp (hSmem n hn)
      apply List.mem_map.mpr
      refine ⟨pc, List.mem_filter.mpr ⟨hpc, ?_⟩, he⟩
      rw [he]
      simpa using hn
  · intro n hn
    have hcontains : S.contains n = true := by simpa using hn
    obtain ⟨vs, hvs⟩ := lookup_some_of_mem_keys allCols n (hSmem n hn)
    refine ⟨vs, ?_, ?_, ?_⟩
    · rw [lookup_filter_keeps allCols S n hcontains]
      exact hvs
    · exact hlenAll2 (n, vs) (lookup_some_mem allCols n vs hvs)
    · intro i hi
      have hrowi := range'_map_getD
        (fun j => allCols.map (fun pc => (pc.1, (pc.2).getD j (Value.str [])))) []
        r.numRows 0 i hi
      simp only [Nat.zero_add] at hrowi
      rw [hrowi]
      have hms := lookup_map_snd allCols (fun vs2 => vs2.getD i (Value.str [])) n
      rw [hvs] at hms
      exact hms

/-- **C6**: a request containing a name absent from the schema fails with
`ColumnNotFoundError` before any block is touched: the outcome is the
same for any file contents and any decompressor, so no column block is
read or decompressed and no partial result escapes. -/
theorem c6_unknown_column (C1v C2v : Compressor) (r1 r2 : CFFReader) (S : List PyStr)
    (hmeta : r1.columnsMetadata = r2.columnsMetadata)
    (hmiss : ∃ n ∈ S, n ∉ getColumnNames r1) :
    readColumns C1v r1 (Option.some S) = Except.error Err.columnNotFound ∧
    readColumns C2v r2 (Option.some S) = Except.error Err.columnNotFound := by
  obtain ⟨n, hnS, hnmem⟩ := hmiss
  have hnames2 : getColumnNames r2 = getColumnNames r1 := by
    unfold getColumnNames
    rw [hmeta]
  have hall1 : ¬(S.all (fun m => (getColumnNames r1).contains m) = true) := by
    intro hc
    exact hnmem (by simpa using List.all_eq_true.mp hc n hnS)
  constructor
  · unfold readColumns
    rw [if_neg hall1]
  · unfold readColumns
    rw [hnames2, if_neg hall1]

/-- `_read_column_data` unfolded: seek to the offset, take exactly
`compressed_size` bytes, decompress, check the length. -/
theorem readColumnData_eq (C : Compressor) (r : CFFReader) (m : ColumnMetadata) :
    readColumnData C r m =
      match C.decompress ((r.fileBytes.drop m.offset).take m.compressedSize) with
      | Option.none => Except.error Err.decompressError
      | Option.some u =>
        if u.length = m.uncompressedSize then Except.ok u
        else Except.error Err.integrityMismatch := rfl

/-- **C7**: per materialized column the decoder takes exactly the
`compressed_size` bytes at the descriptor's offset and decompresses them;
a decompressed length differing from `uncompressed_size` surfaces
`IntegrityMismatchError`, a failed decompression surfaces the
decompression error, a read succeeds only when decompression returned
exactly `uncompressed_size` bytes (so a corruption that perturbs the
block surfaces one of the two errors), and an error on a requested
column aborts the whole `readColumns` call. -/
theorem c7_integrity (C : Compressor) (r : CFFReader) (m : ColumnMetadata) :
    (∀ u, C.decompress ((r.fileBytes.drop m.offset).take m.compressedSize) = Option.some u →
      u.length ≠ m.uncompressedSize →
      readColumnData C r m = Except.error Err.integrityMismatch) ∧
    (C.decompress ((r.fileBytes.drop m.offset).take m.compressedSize) = Option.none →
      readColumnData C r m = Except.error Err.decompressError) ∧
    (∀ u, readColumnData C r m = Except.ok u →
      C.decompress ((r.fileBytes.drop m.offset).take m.compressedSize) = Option.some u ∧
      u.length = m.uncompressedSize) ∧
    (∀ requested ms e, requested.contains m.name = true →
      readColumnData C r m = Except.error e →
      materializeColumns C r requested (m :: ms) = Except.error e) := by
  refine ⟨?_, ?_, ?_, ?_⟩
  · intro u hdec hne
    rw [readColumnData_eq]
    simp only [hdec]
    rw [if_neg hne]
  · intro hdec
    rw [readColumnData_eq]
    simp only [hdec]
  · intro u hok
    rw [readColumnData_eq] at hok
    match hdec : C.decompress ((r.fileBytes.drop m.offset).take m.compressedSize) with
    | Option.none =>
      simp only [hdec] at hok
      exact absurd hok (by simp)
    | Option.some u2 =>
      simp only [hdec] at hok
      by_cases hlen : u2.length = m.uncompressedSize
      · rw [if_pos hlen] at hok
        cases hok
        exact ⟨rfl, hlen⟩
      · rw [if_neg hlen] at hok
        exact absurd hok (by simp)
  · intro requested ms e hreq herr
    rw [materializeColumns, if_pos hreq, herr]

/-! ### Layout invariants of an encoded file -/

theorem serializeInt32_length (vs : List Value) (u : List Nat)
    (h : serializeInt32Column vs = Except.ok u) : u.length = 4 * vs.length := by
  induction vs generalizing u with
  | nil =>
    rw [serializeInt32Column] at h
    cases h
    rfl
  | cons v vs ih =>
    rw [serializeInt32Column] at h
    split at h
    · exact absurd h (by simp)
    · next n hn =>
      revert h
      match hp : packI32 n with
      | Except.error e => intro h; exact absurd h (by simp)
      | Except.ok bs =>
        match hs : serializeInt32Column vs with
        | Except.error e => intro h; exact absurd h (by simp)
        | Except.ok rest =>
          intro h
          cases h
          unfold packI32 at hp
          split at hp
          · cases hp
            simp [natToLE_length, ih rest hs]
            ring
          · exact absurd hp (by simp)

theorem serializeFloat64_length (vs : List Value) (u : List Nat)
    (h : serializeFloat64Column vs = Except.ok u) : u.length = 8 * vs.length := by
  induction vs generalizing u with
  | nil =>
    rw [serializeFloat64Column] at h
    cases h
    rfl
  | cons v vs ih =>
    rw [serializeFloat64Column] at h
    split at h
    · exact absurd h (by simp)
    · next bits hb =>
      revert h
      match hs : serializeFloat64Column vs with
      | Except.error e => intro h; exact absurd h (by simp)
      | Except.ok rest =>
        intro h
        cases h
        simp [natToLE_length, ih rest hs]
        ring

theorem serializeString_length (vs : List Value) (u : List Nat)
    (h : serializeStringColumn vs = Except.ok u) :
    u.length = 4 * (vs.length + 1) + (strBlob vs).length := by
  unfold serializeStringColumn at h
  revert h
  match hp : packOffsets (strOffsets 0 vs) with
  | Except.error e => intro h; exact absurd h (by simp)
  | Except.ok ob =>
    intro h
    cases h
    obtain ⟨hob, _⟩ := packOffsets_ok _ _ hp
    subst hob
    rw [List.length_append, flatten_natToLE4_length, strOffsets_length]

theorem serializeColumn_ne_nil (vs : List Value) (dtype : Nat) (u : List Nat)
    (hvs : vs ≠ []) (h : serializeColumn vs dtype = Except.ok u) : u ≠ [] := by
  have hpos : 0 < vs.length := List.length_pos.mpr hvs
  unfold serializeColumn at h
  split at h
  · have hlen := serializeInt32_length vs u h
    intro hc
    rw [hc, List.length_nil] at hlen
    omega
  · split at h
    · have hlen := serializeFloat64_length vs u h
      intro hc
      rw [hc, List.length_nil] at hlen
      omega
    · split at h
      · have hlen := serializeString_length vs u h
        intro hc
        rw [hc, List.length_nil] at hlen
        omega
      · exact absurd h (by simp)

theorem assignOffsets_head (cur : Nat) (procs : List ProcessedColumn) :
    ∀ m0, (assignOffsets cur procs).head? = Option.some m0 → m0.offset = cur := by
  cases procs with
  | nil => intro m0 h; exact absurd h (by simp [assignOffsets])
  | cons p ps =>
    intro m0 h
    rw [assignOffsets] at h
    simp only [List.head?_cons] at h
    cases h
    rfl

theorem assignOffsets_chain (cur : Nat) (procs : List ProcessedColumn) :
    List.Chain' (fun m1 m2 => m2.offset = m1.offset + m1.compressedSize)
      (assignOffsets cur procs) := by
  induction procs generalizing cur with
  | nil => exact List.chain'_nil
  | cons p ps ih =>
    rw [assignOffsets]
    rw [List.chain'_cons']
    refine ⟨?_, ih (cur + p.compressed.length)⟩
    intro m2 hm2
    rw [assignOffsets_head _ ps m2 hm2]

theorem assignOffsets_ge (cur : Nat) (procs : List ProcessedColumn) :
    ∀ m ∈ assignOffsets cur procs, cur ≤ m.offset := by
  induction procs generalizing cur with
  | nil => intro m hm; exact absurd hm (by simp [assignOffsets])
  | cons p ps ih =>
    intro m hm
    rw [assignOffsets] at hm
    rcases List.mem_cons.mp hm with hm | hm
    · rw [hm]
    · have := ih (cur + p.compressed.length) m hm
      omega

theorem assignOffsets_pairwise (cur : Nat) (procs : List ProcessedColumn) :
    List.Pairwise (fun m1 m2 => m1.offset + m1.compressedSize ≤ m2.offset)
      (assignOffsets cur procs) := by
  induction procs generalizing cur with
  | nil => exact List.Pairwise.nil
  | cons p ps ih =>
    rw [assignOffsets]
    refine List.Pairwise.cons ?_ (ih (cur + p.compressed.length))
    intro m2 hm2
    exact assignOffsets_ge _ ps m2 hm2

theorem assignOffsets_forall₂ (cur : Nat) (procs : List ProcessedColumn) :
    List.Forall₂ (fun (p : ProcessedColumn) (m : ColumnMetadata) =>
      m.name = p.name ∧ m.dtype = p.dtype ∧ m.compressedSize = p.compressed.length ∧
        m.uncompressedSize = p.uncompressedSize) procs (assignOffsets cur procs) := by
  induction procs generalizing cur with
  | nil => exact List.Forall₂.nil
  | cons p ps ih =>
    exact List.Forall₂.cons ⟨rfl, rfl, rfl, rfl⟩ (ih (cur + p.compressed.length))

theorem chain'_lt_of_eq_add (l : List ColumnMetadata)
    (hc : List.Chain' (fun m1 m2 => m2.offset = m1.offset + m1.compressedSize) l)
    (hpos : ∀ m ∈ l, 0 < m.compressedSize) :
    List.Chain' (fun m1 m2 => m1.offset < m2.offset) l := by
  induction l with
  | nil => exact List.chain'_nil
  | cons m ms ih =>
    rw [List.chain'_cons'] at hc ⊢
    refine ⟨?_, ih hc.2 (fun x hx => hpos x (List.mem_cons_of_mem m hx))⟩
    intro m2 hm2
    have := hc.1 m2 hm2
    have := hpos m (List.mem_cons_self m ms)
    omega

/-- **C8**: in every file produced by `encode`, column offsets in
descriptor order grow by exactly the previous compressed size, are
strictly increasing, start right after the header+descriptor table,
leave no two blocks overlapping, and each descriptor's sizes equal the
lengths the serializer and compressor actually produced. -/
theorem c8_layout (C : Compressor) (t : List Row) (bytes : List Nat) (r : CFFReader)
    (henc : write C t = Except.ok bytes) (hr : readHeader bytes = Except.ok r)
    (hC : ∀ d : List Nat, d ≠ [] → C.compress d ≠ []) :
    List.Chain' (fun m1 m2 => m2.offset = m1.offset + m1.compressedSize) r.columnsMetadata ∧
    List.Chain' (fun m1 m2 => m1.offset < m2.offset) r.columnsMetadata ∧
    (∀ m0, r.columnsMetadata.head? = Option.some m0 →
      m0.offset = 20 + (r.columnsMetadata.map (fun m => 29 + m.name.length)).sum) ∧
    (∃ header blocks, bytes = header ++ blocks ∧
      header.length = 20 + (r.columnsMetadata.map (fun m => 29 + m.name.length)).sum) ∧
    List.Pairwise (fun m1 m2 => m1.offset + m1.compressedSize ≤ m2.offset)
      r.columnsMetadata ∧
    (∃ built, buildColumns t (firstRowKeys t) = Except.ok built ∧
      List.Forall₂ (fun (b : BuiltColumn) (m : ColumnMetadata) =>
        m.name = b.name ∧ ∃ u, serializeColumn b.values b.dtype = Except.ok u ∧
          m.uncompressedSize = u.length ∧ m.compressedSize = (C.compress u).length)
        built r.columnsMetadata) := by
  obtain ⟨r0, trest, built, procs, header, hdata, hbuild, hproc, hmk, hbytes⟩ :=
    write_ok_parts henc
  have hrh : readHeader bytes =
      Except.ok ⟨bytes, t.length, assignOffsets (headerSizeOf procs) procs⟩ := by
    rw [hbytes]
    exact mkHeaderBytes_roundtrip t.length _ _ hmk _
  rw [hrh] at hr
  cases hr
  dsimp only
  have hpf := processColumns_forall C built procs hproc
  have hbf := buildColumns_forall t _ built hbuild
  have hsum : 20 + ((assignOffsets (headerSizeOf procs) procs).map
      (fun m => 29 + m.name.length)).sum = headerSizeOf procs := by
    rw [assignOffsets_sum_names, headerSizeOf_eq]
  have htlen : 0 < t.length := by
    rw [hdata]
    simp
  have hpos : ∀ m ∈ assignOffsets (headerSizeOf procs) procs, 0 < m.compressedSize := by
    intro m hm
    obtain ⟨p, hp, hm1, _, hm3, _⟩ :=
      forall₂_mem_right (assignOffsets_forall₂ (headerSizeOf procs) procs) m hm
    obtain ⟨b, hb, _, _, u, hser, hcomp, _⟩ := forall₂_mem_right hpf p hp
    have hblen : b.values.length = t.length := by
      obtain ⟨name, _, _, hget, _⟩ := forall₂_mem_right hbf b hb
      exact getColumn_length name t b.values hget
    have hvne : b.values ≠ [] := by
      intro hc
      rw [hc] at hblen
      simp at hblen
      omega
    have hune : u ≠ [] := serializeColumn_ne_nil b.values b.dtype u hvne hser
    have hcne : C.compress u ≠ [] := hC u hune
    rw [hm3, hcomp]
    exact List.length_pos.mpr hcne
  refine ⟨assignOffsets_chain _ _, chain'_lt_of_eq_add _ (assignOffsets_chain _ _) hpos,
    ?_, ?_, assignOffsets_pairwise _ _, ?_⟩
  · intro m0 hm0
    rw [assignOffsets_head _ _ m0 hm0]
    show headerSizeOf procs = _
    rw [hsum]
  · refine ⟨_, _, hbytes, ?_⟩
    rw [mkHeaderBytes_length t.length _ _ hmk]
  · refine ⟨built, ?_, ?_⟩
    · have : firstRowKeys t = r0.map Prod.fst := by
        simp [firstRowKeys, hdata]
      rw [this]
      exact hbuild
    · refine forall₂_trans hpf (assignOffsets_forall₂ (headerSizeOf procs) procs) ?_
      intro b p m hbp hpm
      obtain ⟨hpn, _, u, hser, hcomp, husz⟩ := hbp
      obtain ⟨hmn, _, hmcs, hmus⟩ := hpm
      refine ⟨by rw [hmn, hpn], u, hser, by rw [hmus, husz], by rw [hmcs, hcomp]⟩

/-! ### Reads on a file with a foreign type tag -/

theorem deserializeColumn_unknown (numRows dtype : Nat) (data : List Nat)
    (h1 : dtype ≠ TYPE_INT32) (h2 : dtype ≠ TYPE_FLOAT64) (h3 : dtype ≠ TYPE_STRING) :
    deserializeColumn numRows dtype data = Except.error Err.unknownTypeTag := by
  unfold deserializeColumn
  rw [if_neg h1, if_neg h2, if_neg h3]

theorem materialize_none (C : Compressor) (r : CFFReader) (requested : List PyStr)
    (ms : List ColumnMetadata) (h : ∀ m ∈ ms, requested.contains m.name = false) :
    materializeColumns C r requested ms = Except.ok [] := by
  induction ms with
  | nil => rfl
  | cons m ms ih =>
    rw [materializeColumns]
    rw [if_neg (by rw [h m (List.mem_cons_self m ms)]; exact Bool.false_ne_true)]
    exact ih (fun x hx => h x (List.mem_cons_of_mem m hx))

theorem materialize_single (C : Compressor) (r : CFFReader) (metas : List ColumnMetadata)
    (m : ColumnMetadata) (hmem : m ∈ metas)
    (hnodup : (metas.map (fun x => x.name)).Nodup) :
    materializeColumns C r [m.name] metas =
      (match readColumnData C r m with
       | Except.error e => Except.error e
       | Except.ok d =>
         match deserializeColumn r.numRows m.dtype d with
         | Except.error e => Except.error e
         | Except.ok vals => Except.ok [(m.name, vals)]) := by
  induction metas with
  | nil => exact absurd hmem (by simp)
  | cons m2 ms ih =>
    rw [List.map_cons, List.nodup_cons] at hnodup
    rcases List.mem_cons.mp hmem with hm | hm
    · subst hm
      rw [materializeColumns]
      rw [if_pos (by simp)]
      have hskip : materializeColumns C r [m.name] ms = Except.ok [] := by
        apply materialize_none
        intro x hx
        have hne : x.name ≠ m.name := by
          intro hc
          exact hnodup.1 (hc ▸ List.mem_map_of_mem (fun y => y.name) hx)
        simp [hne]
      rw [hskip]
    · have hne : m2.name ≠ m.name := by
        intro hc
        exact hnodup.1 (hc ▸ List.mem_map_of_mem (fun y => y.name) hm)
      rw [materializeColumns]
      rw [if_neg (by simp [hne])]
      exact ih hm hnodup.2

/-- **C9**: a file whose descriptor carries a type tag outside the
enumeration opens fine — header parsing does not validate tags and the
schema reports the column as `UNKNOWN`; the unknown-type-tag error is
raised only when that column itself is materialized, and the other
columns of the same file stay readable. -/
theorem c9_unknown_tag (C : Compressor) (numRows : Nat) (metas : List ColumnMetadata)
    (header blocks : List Nat) (mBad mGood : ColumnMetadata)
    (dataBad dataGood : List Nat) (valsGood : List Value)
    (hmk : mkHeaderBytes numRows metas = Except.ok header)
    (hnodup : (metas.map (fun m => m.name)).Nodup)
    (hBadMem : mBad ∈ metas)
    (hBadTag : mBad.dtype ≠ TYPE_INT32 ∧ mBad.dtype ≠ TYPE_FLOAT64 ∧
      mBad.dtype ≠ TYPE_STRING)
    (hGoodMem : mGood ∈ metas)
    (hBadRead : readColumnData C ⟨header ++ blocks, numRows, metas⟩ mBad =
      Except.ok dataBad)
    (hGoodRead : readColumnData C ⟨header ++ blocks, numRows, metas⟩ mGood =
      Except.ok dataGood)
    (hGoodDes : deserializeColumn numRows mGood.dtype dataGood = Except.ok valsGood) :
    readHeader (header ++ blocks) = Except.ok ⟨header ++ blocks, numRows, metas⟩ ∧
    (mBad.name, utf8 "UNKNOWN") ∈ getSchema ⟨header ++ blocks, numRows, metas⟩ ∧
    readColumns C ⟨header ++ blocks, numRows, metas⟩ (Option.some [mBad.name]) =
      Except.error Err.unknownTypeTag ∧
    readColumns C ⟨header ++ blocks, numRows, metas⟩ (Option.some [mGood.name]) =
      Except.ok [(mGood.name, valsGood)] := by
  refine ⟨mkHeaderBytes_roundtrip numRows metas header hmk blocks, ?_, ?_, ?_⟩
  · unfold getSchema
    have : (mBad.name, typeName mBad.dtype) ∈ metas.map (fun m => (m.name, typeName m.dtype)) :=
      List.mem_map_of_mem _ hBadMem
    have htn : typeName mBad.dtype = utf8 "UNKNOWN" := by
      unfold typeName
      rw [if_neg hBadTag.1, if_neg hBadTag.2.1, if_neg hBadTag.2.2]
    rw [htn] at this
    exact this
  · unfold readColumns
    rw [if_pos ?hall]
    case hall =>
      apply List.all_eq_true.mpr
      intro n hn
      rcases List.mem_singleton.mp hn with hn2
      subst hn2
      have : mBad.name ∈ getColumnNames ⟨header ++ blocks, numRows, metas⟩ :=
        List.mem_map_of_mem _ hBadMem
      simpa using this
    rw [materialize_single C _ metas mBad hBadMem hnodup]
    rw [hBadRead]
    show (match deserializeColumn numRows mBad.dtype dataBad with
      | Except.error e => Except.error e
      | Except.ok vals => Except.ok [(mBad.name, vals)]) = _
    rw [deserializeColumn_unknown numRows mBad.dtype dataBad hBadTag.1 hBadTag.2.1 hBadTag.2.2]
  · unfold readColumns
    rw [if_pos ?hall2]
    case hall2 =>
      apply List.all_eq_true.mpr
      intro n hn
      rcases List.mem_singleton.mp hn with hn2
      subst hn2
      have : mGood.name ∈ getColumnNames ⟨header ++ blocks, numRows, metas⟩ :=
        List.mem_map_of_mem _ hGoodMem
      simpa using this
    rw [materialize_single C _ metas mGood hGoodMem hnodup]
    rw [hGoodRead]
    show (match deserializeColumn numRows mGood.dtype dataGood with
      | Except.error e => Except.error e
      | Except.ok vals => Except.ok [(mGood.name, vals)]) = _
    rw [hGoodDes]

/-! ### The encoder sees only first-row keys -/

theorem lookup_filter_prop {γ : Type} (l : List (PyStr × γ)) (p : PyStr → Bool) (n : PyStr)
    (hn : p n = true) :
    List.lookup n (l.filter (fun e => p e.1)) = List.lookup n l := by
  induction l with
  | nil => rfl
  | cons e rest ih =>
    by_cases hk : n = e.1
    · subst hk
      rw [List.filter_cons, if_pos (by simpa using hn)]
      have hb : (e.1 == e.1) = true := beq_iff_eq.mpr rfl
      simp [List.lookup, hb]
    · have hb : (n == e.1) = false := beq_eq_false_iff_ne.mpr hk
      rw [List.filter_cons]
      by_cases hkeep : p e.1 = true
      · rw [if_pos (by simpa using hkeep)]
        simp only [List.lookup, hb]
        exact ih
      · rw [if_neg (by simpa using hkeep)]
        rw [ih]
        simp only [List.lookup, hb]

theorem getColumn_map_filter (k : PyStr) (p : PyStr → Bool) (hk : p k = true)
    (data : List Row) :
    getColumn k (data.map (fun row => row.filter (fun e => p e.1))) = getColumn k data := by
  induction data with
  | nil => rfl
  | cons row rest ih =>
    rw [List.map_cons, getColumn, getColumn, lookup_filter_prop row p k hk, ih]

theorem buildColumns_map_filter (data : List Row) (p : PyStr → Bool) :
    ∀ names : List PyStr, (∀ n ∈ names, p n = true) →
      buildColumns (data.map (fun row => row.filter (fun e => p e.1))) names =
        buildColumns data names := by
  intro names
  induction names with
  | nil => intro _; rfl
  | cons name rest ih =>
    intro hnames
    rw [buildColumns, buildColumns,
      getColumn_map_filter name p (hnames name (List.mem_cons_self name rest)) data,
      ih (fun n hn => hnames n (List.mem_cons_of_mem name hn))]

theorem getColumn_only_keyError (name : PyStr) (data : List Row) (e : Err)
    (h : getColumn name data = Except.error e) : e = Err.keyError := by
  induction data with
  | nil => exact absurd h (by simp [getColumn])
  | cons row rest ih =>
    rw [getColumn] at h
    revert h
    match h1 : row.lookup name with
    | Option.none =>
      intro h
      cases h
      rfl
    | Option.some v =>
      match h2 : getColumn name rest with
      | Except.error e2 =>
        intro h
        cases h
        exact ih h2
      | Except.ok vs => intro h; exact absurd h (by simp)

theorem getColumn_ok_lookup (name : PyStr) (data : List Row) (vs : List Value)
    (h : getColumn name data = Except.ok vs) :
    ∀ row ∈ data, row.lookup name ≠ Option.none := by
  induction data generalizing vs with
  | nil => intro row hrow; exact absurd hrow (by simp)
  | cons row rest ih =>
    rw [getColumn] at h
    revert h
    match h1 : row.lookup name with
    | Option.none => intro h; exact absurd h (by simp)
    | Option.some v =>
      match h2 : getColumn name rest with
      | Except.error e => intro h; exact absurd h (by simp)
      | Except.ok ws =>
        intro h
        intro r2 hr2
        rcases List.mem_cons.mp hr2 with hr | hr
        · subst hr
          rw [h1]
          exact fun hc => Option.noConfusion hc
        · exact ih ws h2 r2 hr

theorem buildColumns_keyError (data : List Row) :
    ∀ names : List PyStr,
      (∃ n ∈ names, ∃ row ∈ data, row.lookup n = Option.none) →
      buildColumns data names = Except.error Err.keyError := by
  intro names
  induction names with
  | nil =>
    intro h
    obtain ⟨n, hn, _⟩ := h
    exact absurd hn (by simp)
  | cons name rest ih =>
    intro h
    rw [buildColumns]
    match h1 : getColumn name data with
    | Except.error e =>
      rw [getColumn_only_keyError name data e h1]
    | Except.ok vs =>
      have htail : ∃ n ∈ rest, ∃ row ∈ data, row.lookup n = Option.none := by
        obtain ⟨n, hn, row, hrow, hnone⟩ := h
        rcases List.mem_cons.mp hn with hn2 | hn2
        · subst hn2
          exact absurd hnone (getColumn_ok_lookup n data vs h1 row hrow)
        · exact ⟨n, hn2, row, hrow, hnone⟩
      rw [ih htail]

/-- **C10**: for row-oriented input, `encode` derives the column set from
the first row's keys alone — keys of later rows outside that set are
silently dropped (the output is the same as for the table with those
entries removed) — while a later row lacking a first-row key makes
`encode` fail with the raw `KeyError`, which is none of the specified
error kinds. -/
theorem c10_first_row_keys (C : Compressor) (t : List Row) :
    (t ≠ [] → write C t =
      write C (t.map (fun row => row.filter (fun e => (firstRowKeys t).contains e.1)))) ∧
    (∀ k, k ∈ firstRowKeys t → (∃ row ∈ t, row.lookup k = Option.none) →
      write C t = Except.error Err.keyError) ∧
    (Err.keyError ∉ [Err.invalidMagic, Err.unsupportedVersion, Err.columnNotFound,
      Err.unknownTypeTag, Err.integrityMismatch, Err.emptyInput, Err.nonUniformLength,
      Err.invalidValueForType]) := by
  refine ⟨?_, ?_, by decide⟩
  · intro hne
    match ht : t with
    | [] => exact absurd rfl hne
    | r0 :: trest =>
      have hkeys : firstRowKeys (r0 :: trest) = r0.map Prod.fst := by
        simp [firstRowKeys]
      have hr0 : r0.filter (fun e => (firstRowKeys (r0 :: trest)).contains e.1) = r0 := by
        apply List.filter_eq_self.mpr
        intro e he
        rw [hkeys]
        simpa using List.mem_map_of_mem Prod.fst he
      have hmap : (r0 :: trest).map
          (fun row => row.filter (fun e => (firstRowKeys (r0 :: trest)).contains e.1)) =
          r0 :: trest.map
            (fun row => row.filter (fun e => (firstRowKeys (r0 :: trest)).contains e.1)) := by
        rw [List.map_cons, hr0]
      rw [hmap]
      rw [write, write]
      have hbc : buildColumns (r0 :: trest.map
          (fun row => row.filter (fun e => (firstRowKeys (r0 :: trest)).contains e.1)))
          (r0.map Prod.fst) = buildColumns (r0 :: trest) (r0.map Prod.fst) := by
        have h1 := buildColumns_map_filter (r0 :: trest)
          (fun n => (firstRowKeys (r0 :: trest)).contains n) (r0.map Prod.fst)
          (fun n hn => by rw [hkeys]; simpa using hn)
        rw [List.map_cons, hr0] at h1
        exact h1
      rw [hbc]
      simp only [List.length_cons, List.length_map]
  · intro k hk hmiss
    match ht : t with
    | [] =>
      exact absurd hk (by simp [firstRowKeys])
    | r0 :: trest =>
      have hkeys : firstRowKeys (r0 :: trest) = r0.map Prod.fst := by
        simp [firstRowKeys]
      rw [hkeys] at hk
      rw [write]
      have hbc := buildColumns_keyError (r0 :: trest) (r0.map Prod.fst) ⟨k, hk, hmiss⟩
      rw [hbc]

/-! ### Type inference and late serialization failure -/

/-- The inference scan skips exactly the missing values and returns the
type of the first informative value, whatever follows it. -/
theorem inferColumnType_scan (pre : List Value) (v : Value) (vs : List Value)
    (hpre : ∀ u ∈ pre, isMissing u = true) (hv : isMissing v = false) :
    inferColumnType (pre ++ v :: vs) = infer_type v := by
  induction pre with
  | nil =>
    rw [List.nil_append, inferColumnType,
      if_neg (by rw [hv]; exact Bool.false_ne_true)]
  | cons u pre ih =>
    rw [List.cons_append, inferColumnType,
      if_pos (hpre u (List.mem_cons_self u pre))]
    exact ih (fun x hx => hpre x (List.mem_cons_of_mem u hx))

/-- An Int32 column whose earlier values convert and fit fails with the
`InvalidValueForType` error at the first unconvertible value. -/
theorem serializeInt32_prefix_fail (pre : List Value) (v : Value) (post : List Value)
    (hpre : ∀ u ∈ pre, ∃ n : Int, intOfValue u = Option.some n ∧
      -(2 ^ 31) ≤ n ∧ n < 2 ^ 31)
    (hv : intOfValue v = Option.none) :
    serializeInt32Column (pre ++ v :: post) = Except.error Err.invalidValueForType := by
  induction pre with
  | nil => simp only [List.nil_append, serializeInt32Column, hv]
  | cons u pre ih =>
    obtain ⟨n, hn, h1, h2⟩ := hpre u (List.mem_cons_self u pre)
    have hp : packI32 n = Except.ok (natToLE 4 (n % (2 ^ 32 : Int)).toNat) := by
      unfold packI32
      rw [if_pos ⟨h1, h2⟩]
    simp only [List.cons_append, serializeInt32Column, hn, hp, List.append_eq,
      ih (fun x hx => hpre x (List.mem_cons_of_mem u hx))]

/-- A Float64 column whose earlier values convert fails with the
`InvalidValueForType` error at the first unconvertible value. -/
theorem serializeFloat64_prefix_fail (pre : List Value) (v : Value) (post : List Value)
    (hpre : ∀ u ∈ pre, ∃ b : Nat, floatOfValueBits u = Option.some b)
    (hv : floatOfValueBits v = Option.none) :
    serializeFloat64Column (pre ++ v :: post) = Except.error Err.invalidValueForType := by
  induction pre with
  | nil => simp only [List.nil_append, serializeFloat64Column, hv]
  | cons u pre ih =>
    obtain ⟨b, hb⟩ := hpre u (List.mem_cons_self u pre)
    simp only [List.cons_append, serializeFloat64Column, hb, List.append_eq,
      ih (fun x hx => hpre x (List.mem_cons_of_mem u hx))]

/-- **C3** (counterexample): the claimed example column of the string
values "3.5", "2.1" infers String (tag 3), not Float64 (tag 2):
`infer_type` dispatches on the Python type of the value and both values
are `str`. -/
theorem c3_counterexample :
    inferColumnType [Value.str (utf8 "3.5"), Value.str (utf8 "2.1")] = TYPE_STRING ∧
    TYPE_STRING ≠ TYPE_FLOAT64 := by decide

/-- **C3** (amended): type inference maps each column to the type of its
first value that is neither missing nor an empty string — bool and int
values infer Int32, float values infer Float64, anything else (strings
included, whatever digits they contain) infers String. In particular
`[true, false, true]` infers Int32 and round-trips as `[1, 0, 1]`, the
float column `[3.5, 2.1]` infers Float64 while the string column
`["3.5", "2.1"]` infers String, `["a", "b"]` infers String, and a column
of all empty strings infers String. -/
theorem c3_type_inference_amended :
    (∀ (pre : List Value) (v : Value) (vs : List Value),
      (∀ u ∈ pre, isMissing u = true) → isMissing v = false →
      inferColumnType (pre ++ v :: vs) = infer_type v) ∧
    (∀ b : Bool, infer_type (Value.bool b) = TYPE_INT32) ∧
    (∀ n : Int, infer_type (Value.int n) = TYPE_INT32) ∧
    (∀ b : Nat, infer_type (Value.float b) = TYPE_FLOAT64) ∧
    (∀ s : PyStr, infer_type (Value.str s) = TYPE_STRING) ∧
    (inferColumnType [Value.bool true, Value.bool false, Value.bool true] = TYPE_INT32 ∧
      serializeInt32Column [Value.bool true, Value.bool false, Value.bool true] =
        Except.ok [1, 0, 0, 0, 0, 0, 0, 0, 1, 0, 0, 0] ∧
      deserializeInt32 [1, 0, 0, 0, 0, 0, 0, 0, 1, 0, 0, 0] = Except.ok [1, 0, 1]) ∧
    inferColumnType [Value.float 0x400C000000000000, Value.float 0x4000CCCCCCCCCCCD] =
      TYPE_FLOAT64 ∧
    inferColumnType [Value.str (utf8 "3.5"), Value.str (utf8 "2.1")] = TYPE_STRING ∧
    inferColumnType [Value.str (utf8 "a"), Value.str (utf8 "b")] = TYPE_STRING ∧
    inferColumnType [Value.str [], Value.str []] = TYPE_STRING := by
  refine ⟨inferColumnType_scan, fun b => by cases b <;> rfl, fun n => rfl, fun b => rfl,
    fun s => rfl, ⟨by decide, by decide, by decide⟩, by decide, by decide, by decide,
    by decide⟩

/-- **C4**: type inference is a single forward scan that stops at the
first non-missing, non-empty value (the result is independent of the
tail), and a later value the inferred type cannot convert is not caught
at inference time — serialization fails with the `InvalidValueForType`
error, as on the Int32 column `[1, "abc"]`. -/
theorem c4_late_serialization_failure :
    (∀ (pre : List Value) (v : Value) (vs vs2 : List Value),
      (∀ u ∈ pre, isMissing u = true) → isMissing v = false →
      inferColumnType (pre ++ v :: vs) = inferColumnType (pre ++ v :: vs2)) ∧
    (∀ (pre : List Value) (v : Value) (post : List Value),
      (∀ u ∈ pre, ∃ n : Int, intOfValue u = Option.some n ∧
        -(2 ^ 31) ≤ n ∧ n < 2 ^ 31) →
      intOfValue v = Option.none →
      serializeInt32Column (pre ++ v :: post) = Except.error Err.invalidValueForType) ∧
    (∀ (pre : List Value) (v : Value) (post : List Value),
      (∀ u ∈ pre, ∃ b : Nat, floatOfValueBits u = Option.some b) →
      floatOfValueBits v = Option.none →
      serializeFloat64Column (pre ++ v :: post) = Except.error Err.invalidValueForType) ∧
    (inferColumnType [Value.int 1, Value.str (utf8 "abc")] = TYPE_INT32 ∧
      intOfValue (Value.str (utf8 "abc")) = Option.none ∧
      ∀ Cp : Compressor,
        write Cp [[(utf8 "a", Value.int 1)], [(utf8 "a", Value.str (utf8 "abc"))]] =
          Except.error Err.invalidValueForType) := by
  refine ⟨?_, serializeInt32_prefix_fail, serializeFloat64_prefix_fail,
    by decide, by decide, fun Cp => rfl⟩
  intro pre v vs vs2 hpre hv
  rw [inferColumnType_scan pre v vs hpre hv, inferColumnType_scan pre v vs2 hpre hv]

/-! ### Missing-value handling -/

set_option maxRecDepth 100000

theorem getD_map_lt {α β : Type} (f : α → β) (l : List α) (i : Nat) (hi : i < l.length)
    (d : β) (d2 : α) : (l.map f).getD i d = f (l.getD i d2) := by
  rw [List.getD_eq_getElem _ _ (by simpa using hi), List.getD_eq_getElem _ _ hi,
    List.getElem_map]

/-- The byte stream of the two-row one-String-column table
`[{a: None}, {a: "x"}]`. -/
def c5demoBytes : List Nat :=
  match write idCompressor [[(utf8 "a", Value.none)], [(utf8 "a", Value.str (utf8 "x"))]] with
  | Except.ok bs => bs
  | Except.error _ => []

/-- **C5** (counterexample): a `None` in a String column does not decode
to an empty value — `str(None)` makes it the literal string `"None"`;
and an empty string in a numeric column does not decode to zero — the
encoder rejects it at serialization, so no file is produced at all. -/
theorem c5_counterexample :
    write idCompressor [[(utf8 "a", Value.none)], [(utf8 "a", Value.str (utf8 "x"))]] =
      Except.ok c5demoBytes ∧
    decodeFile idCompressor c5demoBytes =
      Except.ok [[(utf8 "a", Value.str (utf8 "None"))], [(utf8 "a", Value.str (utf8 "x"))]] ∧
    Value.str (utf8 "None") ≠ Value.str [] ∧
    write idCompressor [[(utf8 "b", Value.str [])], [(utf8 "b", Value.int 5)]] =
      Except.error Err.invalidValueForType :=
  ⟨rfl, rfl, by decide, rfl⟩

/-- **C5** (amended): the encoder conflates missing and empty only at
type-inference time. In a String column an empty string round-trips to
the empty string while a `None` serializes via `str()` and decodes to the
literal string `"None"`; in a numeric column a `None` or empty-string
value is rejected at serialization with the `InvalidValueForType` error,
so decoding never sees it. The decoder itself never reconstructs a
missing marker: every decoded value is an int, a float, or a string. -/
theorem c5_missing_collapse_amended :
    (∀ (vs : List Value) (u : List Nat) (ws : List PyStr),
      serializeStringColumn vs = Except.ok u →
      deserializeString vs.length u = Except.ok ws →
      ∀ i, i < vs.length →
        (vs.getD i Value.none = Value.str [] → ws.getD i [] = []) ∧
        (vs.getD i Value.none = Value.none → ws.getD i [] = utf8 "None")) ∧
    (∀ (pre : List Value) (v : Value) (post : List Value),
      (v = Value.none ∨ v = Value.str []) →
      (∀ u ∈ pre, ∃ n : Int, intOfValue u = Option.some n ∧
        -(2 ^ 31) ≤ n ∧ n < 2 ^ 31) →
      serializeInt32Column (pre ++ v :: post) = Except.error Err.invalidValueForType) ∧
    (∀ (pre : List Value) (v : Value) (post : List Value),
      (v = Value.none ∨ v = Value.str []) →
      (∀ u ∈ pre, ∃ b : Nat, floatOfValueBits u = Option.some b) →
      serializeFloat64Column (pre ++ v :: post) = Except.error Err.invalidValueForType) ∧
    (∀ (numRows dtype : Nat) (data : List Nat) (ws : List Value),
      deserializeColumn numRows dtype data = Except.ok ws →
      ∀ w ∈ ws, w ≠ Value.none ∧ ∀ b : Bool, w ≠ Value.bool b) := by
  refine ⟨?_, ?_, ?_, ?_⟩
  · intro vs u ws hser hdes i hi
    have hdes2 := serializeString_roundtrip vs u hser
    rw [hdes] at hdes2
    have hws : ws = vs.map strOfValue := (Except.ok.injEq _ _).mp hdes2
    subst hws
    rw [getD_map_lt strOfValue vs i hi [] Value.none]
    constructor
    · intro hv
      rw [hv]
      rfl
    · intro hv
      rw [hv]
      rfl
  · intro pre v post hv hpre
    apply serializeInt32_prefix_fail pre v post hpre
    rcases hv with hv | hv <;> rw [hv] <;> rfl
  · intro pre v post hv hpre
    apply serializeFloat64_prefix_fail pre v post hpre
    rcases hv with hv | hv <;> rw [hv] <;> rfl
  · intro numRows dtype data ws hdes w hw
    unfold deserializeColumn at hdes
    split at hdes
    · revert hdes
      match h1 : deserializeInt32 data with
      | Except.error e => intro hdes; exact absurd hdes (by simp)
      | Except.ok ns =>
        intro hdes
        cases hdes
        obtain ⟨n, _, hn⟩ := List.mem_map.mp hw
        exact ⟨by rw [← hn]; exact fun hc => Value.noConfusion hc,
          fun b => by rw [← hn]; exact fun hc => Value.noConfusion hc⟩
    · split at hdes
      · revert hdes
        match h1 : deserializeFloat64 data with
        | Except.error e => intro hdes; exact absurd hdes (by simp)
        | Except.ok bs =>
          intro hdes
          cases hdes
          obtain ⟨n, _, hn⟩ := List.mem_map.mp hw
          exact ⟨by rw [← hn]; exact fun hc => Value.noConfusion hc,
            fun b => by rw [← hn]; exact fun hc => Value.noConfusion hc⟩
      · split at hdes
        · revert hdes
          match h1 : deserializeString numRows data with
          | Except.error e => intro hdes; exact absurd hdes (by simp)
          | Except.ok ss =>
            intro hdes
            cases hdes
            obtain ⟨n, _, hn⟩ := List.mem_map.mp hw
            exact ⟨by rw [← hn]; exact fun hc => Value.noConfusion hc,
              fun b => by rw [← hn]; exact fun hc => Value.noConfusion hc⟩
        · exact absurd hdes (by simp)

/-! ### Concrete demonstration data for the witnesses -/

/-- The spec's concrete scenario: two rows of `id` (int), `name`
(string), `score` (float). -/
def demoTable : List Row :=
  [[(utf8 "id", Value.int 1), (utf8 "name", Value.str (utf8 "Alice")),
    (utf8 "score", Value.float 0x4057E00000000000)],
   [(utf8 "id", Value.int 2), (utf8 "name", Value.str (utf8 "Bob")),
    (utf8 "score", Value.float 0x4055C00000000000)]]

/-- The byte stream `encode(demoTable)` produces with the identity
compressor. -/
def demoBytes : List Nat :=
  match write idCompressor demoTable with
  | Except.ok bs => bs
  | Except.error _ => []

/-- The reader state obtained by opening `demoBytes`. -/
def demoReader : CFFReader :=
  match readHeader demoBytes with
  | Except.ok r => r
  | Except.error _ => ⟨[], 0, []⟩

/-- Witness for C1: the demonstration table round-trips. -/
theorem c1_round_trip_witness :
    WellFormedTable demoTable ∧ MatchesInferred demoTable ∧
    (∃ t2, decodeFile idCompressor demoBytes = Except.ok t2 ∧
      t2.length = demoTable.length ∧
      ∀ i, i < demoTable.length → rowEquiv (t2.getD i []) (demoTable.getD i [])) :=
  ⟨by decide, by decide,
    c1_round_trip idCompressor demoTable demoBytes (by decide) (by decide) rfl⟩

/-- Witness for C2: projecting the demonstration file onto `name`. -/
theorem c2_projection_witness :
    (write idCompressor demoTable = Except.ok demoBytes) ∧
    (readHeader demoBytes = Except.ok demoReader) ∧
    ([utf8 "name"] ≠ ([] : List PyStr)) ∧
    (∀ n ∈ [utf8 "name"], n ∈ getColumnNames demoReader) ∧
    (∃ cols rows,
      readColumns idCompressor demoReader (Option.some [utf8 "name"]) = Except.ok cols ∧
      read idCompressor demoReader = Except.ok rows ∧
      (∀ n : PyStr, n ∈ cols.map Prod.fst ↔ n ∈ [utf8 "name"]) ∧
      rows.length = demoReader.numRows ∧
      (∀ n ∈ [utf8 "name"], ∃ vs, List.lookup n cols = Option.some vs ∧
        vs.length = demoReader.numRows ∧
        ∀ i, i < demoReader.numRows → List.lookup n (rows.getD i []) =
          Option.some (vs.getD i (Value.str [])))) :=
  ⟨rfl, rfl, by decide, by decide,
    c2_projection idCompressor demoTable demoBytes demoReader [utf8 "name"] rfl rfl
      (by decide) (by decide)⟩

/-- Witness for the amended C3: the scan skips missing and empty values
and types the column from the first informative value. -/
theorem c3_type_inference_amended_witness :
    ((∀ u ∈ ([Value.none, Value.str []] : List Value), isMissing u = true) ∧
      isMissing (Value.int 7) = false) ∧
    inferColumnType ([Value.none, Value.str []] ++ Value.int 7 :: [Value.str (utf8 "zz")]) =
      infer_type (Value.int 7) :=
  ⟨⟨by decide, by decide⟩,
    c3_type_inference_amended.1 [Value.none, Value.str []] (Value.int 7)
      [Value.str (utf8 "zz")] (by decide) (by decide)⟩

/-- Witness for C4: the Int32 column `[1, "abc"]` fails at serialization
with the `InvalidValueForType` error. -/
theorem c4_late_serialization_failure_witness :
    (intOfValue (Value.str (utf8 "abc")) = Option.none) ∧
    serializeInt32Column ([Value.int 1] ++ Value.str (utf8 "abc") :: []) =
      Except.error Err.invalidValueForType :=
  ⟨by decide,
    c4_late_serialization_failure.2.1 [Value.int 1] (Value.str (utf8 "abc")) []
      (by
        intro u hu
        rw [List.mem_singleton.mp hu]
        exact ⟨1, rfl, by decide, by decide⟩)
      (by decide)⟩

/-- Witness for the amended C5: an empty string is rejected in an Int32
column, and a serialized `None` in a String column decodes to `"None"`. -/
theorem c5_missing_collapse_amended_witness :
    (serializeInt32Column ([] ++ Value.str [] :: [Value.int 3]) =
      Except.error Err.invalidValueForType) ∧
    (([Value.none, Value.str []] : List Value).getD 0 Value.none = Value.none →
      ([utf8 "None", []] : List PyStr).getD 0 [] = utf8 "None") :=
  ⟨c5_missing_collapse_amended.2.1 [] (Value.str []) [Value.int 3] (Or.inr rfl)
      (fun u hu => absurd hu (by simp)),
    (c5_missing_collapse_amended.1 [Value.none, Value.str []] _ [utf8 "None", []]
      rfl rfl 0 (by decide)).2⟩

/-- Witness for C6: requesting `doesnotexist` aborts with
`ColumnNotFoundError` regardless of the backing bytes. -/
theorem c6_unknown_column_witness :
    (∃ n ∈ [utf8 "doesnotexist"], n ∉ getColumnNames demoReader) ∧
    (readColumns idCompressor demoReader (Option.some [utf8 "doesnotexist"]) =
        Except.error Err.columnNotFound ∧
      readColumns idCompressor ⟨[], demoReader.numRows, demoReader.columnsMetadata⟩
        (Option.some [utf8 "doesnotexist"]) = Except.error Err.columnNotFound) :=
  ⟨⟨utf8 "doesnotexist", by decide, by decide⟩,
    c6_unknown_column idCompressor idCompressor demoReader
      ⟨[], demoReader.numRows, demoReader.columnsMetadata⟩ [utf8 "doesnotexist"] rfl
      ⟨utf8 "doesnotexist", by decide, by decide⟩⟩

/-- Witness for C7: a block that decompresses to 3 bytes against a
descriptor recording 99 surfaces `IntegrityMismatchError`. -/
theorem c7_integrity_witness :
    (idCompressor.decompress ((([1, 2, 3] : List Nat).drop
        (⟨utf8 "x", 1, 0, 3, 99⟩ : ColumnMetadata).offset).take
        (⟨utf8 "x", 1, 0, 3, 99⟩ : ColumnMetadata).compressedSize) =
      Option.some [1, 2, 3]) ∧
    (([1, 2, 3] : List Nat).length ≠ 99) ∧
    readColumnData idCompressor ⟨[1, 2, 3], 0, []⟩ ⟨utf8 "x", 1, 0, 3, 99⟩ =
      Except.error Err.integrityMismatch :=
  ⟨rfl, by decide,
    (c7_integrity idCompressor ⟨[1, 2, 3], 0, []⟩ ⟨utf8 "x", 1, 0, 3, 99⟩).1 [1, 2, 3]
      rfl (by decide)⟩

/-- Witness for C8: the layout invariants on the demonstration file. -/
theorem c8_layout_witness :
    (∀ d : List Nat, d ≠ [] → idCompressor.compress d ≠ []) ∧
    (List.Chain' (fun m1 m2 => m2.offset = m1.offset + m1.compressedSize)
        demoReader.columnsMetadata ∧
      List.Chain' (fun m1 m2 => m1.offset < m2.offset) demoReader.columnsMetadata ∧
      (∀ m0, demoReader.columnsMetadata.head? = Option.some m0 →
        m0.offset = 20 + (demoReader.columnsMetadata.map
          (fun m => 29 + m.name.length)).sum) ∧
      (∃ header blocks, demoBytes = header ++ blocks ∧
        header.length = 20 + (demoReader.columnsMetadata.map
          (fun m => 29 + m.name.length)).sum) ∧
      List.Pairwise (fun m1 m2 => m1.offset + m1.compressedSize ≤ m2.offset)
        demoReader.columnsMetadata ∧
      (∃ built, buildColumns demoTable (firstRowKeys demoTable) = Except.ok built ∧
        List.Forall₂ (fun (b : BuiltColumn) (m : ColumnMetadata) =>
          m.name = b.name ∧ ∃ u, serializeColumn b.values b.dtype = Except.ok u ∧
            m.uncompressedSize = u.length ∧
            m.compressedSize = (idCompressor.compress u).length)
          built demoReader.columnsMetadata)) :=
  ⟨fun d h => h,
    c8_layout idCompressor demoTable demoBytes demoReader rfl rfl (fun d h => h)⟩

/-- Descriptors of a crafted file whose second column carries type tag 7. -/
def demo9Metas : List ColumnMetadata :=
  [⟨utf8 "good", TYPE_INT32, 85, 4, 4⟩, ⟨utf8 "bad", 7, 89, 2, 2⟩]

/-- The crafted header bytes for `demo9Metas`. -/
def demo9Header : List Nat :=
  match mkHeaderBytes 1 demo9Metas with
  | Except.ok h => h
  | Except.error _ => []

/-- The crafted column blocks: one Int32 row, then the opaque bad block. -/
def demo9Blocks : List Nat := natToLE 4 5 ++ [9, 9]

/-- Witness for C9: the crafted file with tag 7 opens, reports UNKNOWN,
errors only on materializing the bad column, and serves the good one. -/
theorem c9_unknown_tag_witness :
    (mkHeaderBytes 1 demo9Metas = Except.ok demo9Header) ∧
    (readHeader (demo9Header ++ demo9Blocks) =
        Except.ok ⟨demo9Header ++ demo9Blocks, 1, demo9Metas⟩ ∧
      (utf8 "bad", utf8 "UNKNOWN") ∈
        getSchema ⟨demo9Header ++ demo9Blocks, 1, demo9Metas⟩ ∧
      readColumns idCompressor ⟨demo9Header ++ demo9Blocks, 1, demo9Metas⟩
        (Option.some [utf8 "bad"]) = Except.error Err.unknownTypeTag ∧
      readColumns idCompressor ⟨demo9Header ++ demo9Blocks, 1, demo9Metas⟩
        (Option.some [utf8 "good"]) = Except.ok [(utf8 "good", [Value.int 5])]) :=
  ⟨rfl,
    c9_unknown_tag idCompressor 1 demo9Metas demo9Header demo9Blocks
      ⟨utf8 "bad", 7, 89, 2, 2⟩ ⟨utf8 "good", TYPE_INT32, 85, 4, 4⟩
      [9, 9] (natToLE 4 5) [Value.int 5] rfl (by decide) (by decide)
      ⟨by decide, by decide, by decide⟩ (by decide) rfl rfl rfl⟩

/-- Witness for C10: a `b` key present only in the second row is dropped,
and a first-row key missing from a later row raises `KeyError`. -/
theorem c10_first_row_keys_witness :
    (write idCompressor [[(utf8 "a", Value.int 1)],
        [(utf8 "a", Value.int 2), (utf8 "b", Value.int 9)]] =
      write idCompressor ([[(utf8 "a", Value.int 1)],
        [(utf8 "a", Value.int 2), (utf8 "b", Value.int 9)]].map
          (fun row => row.filter (fun e =>
            (firstRowKeys [[(utf8 "a", Value.int 1)],
              [(utf8 "a", Value.int 2), (utf8 "b", Value.int 9)]]).contains e.1)))) ∧
    (write idCompressor [[(utf8 "a", Value.int 1), (utf8 "c", Value.int 5)],
        [(utf8 "a", Value.int 2)]] = Except.error Err.keyError) :=
  ⟨(c10_first_row_keys idCompressor _).1 (by decide),
    (c10_first_row_keys idCompressor _).2.1 (utf8 "c") (by decide)
      ⟨[(utf8 "a", Value.int 2)], by decide, rfl⟩⟩

end CFF
